import Mathlib

/-!
# Verification of the BinderHub event-stream handler core

A shallow embedding of `binderhub/base.py` (the `BaseHandler` /
`EventStreamHandler` request-handler classes) and proofs about it.

The embedding models:

* Python's `json.dumps` (default options: `ensure_ascii=True`,
  separators `", "` and `": "`) on the JSON-serializable values the
  handlers pass to it, together with a JSON decoder in the style of
  Python's `json.loads` restricted to the value universe used here
  (numbers are arbitrary-precision integers; floats are out of scope);
* the `http.client.responses` status-phrase table;
* Tornado's `RequestHandler` transport boundary (`write`, `flush`,
  `finish`, `StreamClosedError`, the `web.Finish` control-flow
  exception) as explicit state transitions on a handler state;
* the handler methods themselves: `extract_message`,
  `get_spec_from_request`, `set_default_headers`, `emit`, `on_finish`,
  `keep_alive`, `send_error`.

Python strings are Lean `String`s, lists of events written to the
transport are kept in order, and the cooperative-concurrency race
between `keep_alive` and `on_finish` is modelled by an environment step
applied at the loop's only suspension point (its sleep).
-/

namespace Binderhub

/-! ## Characters, digits and hexadecimal -/

/-- The decimal digit character for `n < 10` (total, clamping at `'9'`). -/
def digitChar : Nat → Char
  | 0 => '0' | 1 => '1' | 2 => '2' | 3 => '3' | 4 => '4'
  | 5 => '5' | 6 => '6' | 7 => '7' | 8 => '8' | _ => '9'

/-- The lowercase hexadecimal digit character for `n < 16` (as produced by
Python's `"\\u%04x"` formatting in `json.dumps`). -/
def hexDigitChar : Nat → Char
  | 0 => '0' | 1 => '1' | 2 => '2' | 3 => '3' | 4 => '4'
  | 5 => '5' | 6 => '6' | 7 => '7' | 8 => '8' | 9 => '9'
  | 10 => 'a' | 11 => 'b' | 12 => 'c' | 13 => 'd' | 14 => 'e' | _ => 'f'

/-- Four lowercase hex digits for `n < 65536`, most significant first. -/
def hex4 (n : Nat) : List Char :=
  [hexDigitChar (n / 4096 % 16), hexDigitChar (n / 256 % 16),
   hexDigitChar (n / 16 % 16), hexDigitChar (n % 16)]

/-- Decimal digits of `n`, most significant first; `fuel` bounds the
recursion depth (any `fuel > n` is enough). -/
def natToCharsAux : Nat → Nat → List Char
  | 0, _ => []
  | fuel + 1, n =>
    if n < 10 then [digitChar n]
    else natToCharsAux fuel (n / 10) ++ [digitChar (n % 10)]

/-- Decimal representation of a natural number, as Python prints it. -/
def natToChars (n : Nat) : List Char := natToCharsAux (n + 1) n

/-- Decimal representation of an integer, as Python prints it
(`str(n)`: an optional leading `'-'`, then digits). -/
def intToChars (n : Int) : List Char :=
  if n < 0 then '-' :: natToChars (-n).toNat else natToChars n.toNat

/-- Numeric value of a hexadecimal digit character (either case), as the
JSON decoder reads `\uXXXX` escapes. -/
def hexVal (c : Char) : Option Nat :=
  if 48 ≤ c.toNat ∧ c.toNat ≤ 57 then some (c.toNat - 48)
  else if 97 ≤ c.toNat ∧ c.toNat ≤ 102 then some (c.toNat - 87)
  else if 65 ≤ c.toNat ∧ c.toNat ≤ 70 then some (c.toNat - 55)
  else none

/-- Whether `c` is a decimal digit. -/
def isDigitC (c : Char) : Bool := 48 ≤ c.toNat && c.toNat ≤ 57

/-- The numeric value of a digit character. -/
def digitVal (c : Char) : Nat := c.toNat - 48

/-- Whether `c` is JSON whitespace. -/
def isWsC (c : Char) : Bool := c = ' ' || c = '\t' || c = '\n' || c = '\r'

/-- ASCII lowercasing of one character. -/
def lowerChar (c : Char) : Char :=
  if 65 ≤ c.toNat ∧ c.toNat ≤ 90 then Char.ofNat (c.toNat + 32) else c

/-- ASCII lowercasing of a string: the case-insensitive key under which
Tornado's `HTTPHeaders` stores a response header name. -/
def lowerStr (s : String) : String := String.mk (s.data.map lowerChar)

/-! ## JSON values

The universe of JSON-serializable Python values the handlers emit:
`None`, `bool`, `int`, `str`, `list`, `dict` with string keys in
insertion order.  (Floats do not occur in the handler code and are out
of scope.)  Arrays and objects are by mutual induction so that all
functions and proofs below are plain mutual structural recursions. -/

mutual
/-- A JSON-serializable Python value. -/
inductive Json where
  | null
  | bool (b : Bool)
  | int (n : Int)
  | str (s : String)
  | arr (elts : JArr)
  | obj (mems : JObj)
  deriving DecidableEq
/-- A list of JSON values (a Python `list`). -/
inductive JArr where
  | nil
  | cons (hd : Json) (tl : JArr)
  deriving DecidableEq
/-- Key/value members of a JSON object (a Python `dict`, in insertion
order). -/
inductive JObj where
  | nil
  | cons (key : String) (val : Json) (tl : JObj)
  deriving DecidableEq
end

/-- One character of a JSON string as escaped by Python's
`json.dumps` with its default `ensure_ascii=True`: `"` and `\\` and the
five short control escapes get two-character escapes, printable ASCII
passes through, everything else becomes `\uXXXX` (a surrogate pair for
characters beyond the basic multilingual plane). -/
def escapeChar (c : Char) : List Char :=
  if c = '"' then ['\\', '"']
  else if c = '\\' then ['\\', '\\']
  else if c = '\n' then ['\\', 'n']
  else if c = '\r' then ['\\', 'r']
  else if c = '\t' then ['\\', 't']
  else if c.toNat = 8 then ['\\', 'b']
  else if c.toNat = 12 then ['\\', 'f']
  else if 32 ≤ c.toNat ∧ c.toNat ≤ 126 then [c]
  else if c.toNat < 65536 then '\\' :: 'u' :: hex4 c.toNat
  else
    ('\\' :: 'u' :: hex4 (55296 + (c.toNat - 65536) / 1024)) ++
    ('\\' :: 'u' :: hex4 (56320 + (c.toNat - 65536) % 1024))

/-- `json.dumps` escaping of a whole string body. -/
def escapeStr : List Char → List Char
  | [] => []
  | c :: cs => escapeChar c ++ escapeStr cs

mutual
/-- The characters of `json.dumps(v)` with Python's default options:
item separator `", "`, key separator `": "`, `ensure_ascii=True`. -/
def dumpChars : Json → List Char
  | .null => "null".data
  | .bool true => "true".data
  | .bool false => "false".data
  | .int n => intToChars n
  | .str s => '"' :: escapeStr s.data ++ ['"']
  | .arr elts => '[' :: dumpArr elts ++ [']']
  | .obj mems => '{' :: dumpObj mems ++ ['}']
/-- Array items joined by `", "`. -/
def dumpArr : JArr → List Char
  | .nil => []
  | .cons j .nil => dumpChars j
  | .cons j tl => dumpChars j ++ ',' :: ' ' :: dumpArr tl
/-- Object members, each `"key": value`, joined by `", "`. -/
def dumpObj : JObj → List Char
  | .nil => []
  | .cons k v .nil => '"' :: escapeStr k.data ++ '"' :: ':' :: ' ' :: dumpChars v
  | .cons k v tl =>
    ('"' :: escapeStr k.data ++ '"' :: ':' :: ' ' :: dumpChars v) ++
    ',' :: ' ' :: dumpObj tl
end

/-- `json.dumps` as a Lean string. -/
def Json.dumps (j : Json) : String := String.mk (dumpChars j)

/-- Whether an object has a member with the given key. -/
def hasKey : JObj → String → Bool
  | .nil, _ => false
  | .cons k _ tl, key => k == key || hasKey tl key

mutual
/-- Well-formedness of a value as the image of a Python value: object
keys are pairwise distinct at every node (a Python `dict` cannot hold a
key twice). -/
def Json.wf : Json → Bool
  | .null => true
  | .bool _ => true
  | .int _ => true
  | .str _ => true
  | .arr elts => wfArr elts
  | .obj mems => wfObj mems
/-- `Json.wf` on every element. -/
def wfArr : JArr → Bool
  | .nil => true
  | .cons j tl => Json.wf j && wfArr tl
/-- Keys pairwise distinct, values well-formed. -/
def wfObj : JObj → Bool
  | .nil => true
  | .cons k v tl => !hasKey tl k && Json.wf v && wfObj tl
end

/-! ## The `http.client.responses` table -/

/-- Python's `http.client.responses`: status code to standard phrase. -/
def responses : List (Nat × String) :=
  [(100, "Continue"), (101, "Switching Protocols"), (102, "Processing"),
   (103, "Early Hints"),
   (200, "OK"), (201, "Created"), (202, "Accepted"),
   (203, "Non-Authoritative Information"), (204, "No Content"),
   (205, "Reset Content"), (206, "Partial Content"), (207, "Multi-Status"),
   (208, "Already Reported"), (226, "IM Used"),
   (300, "Multiple Choices"), (301, "Moved Permanently"), (302, "Found"),
   (303, "See Other"), (304, "Not Modified"), (305, "Use Proxy"),
   (307, "Temporary Redirect"), (308, "Permanent Redirect"),
   (400, "Bad Request"), (401, "Unauthorized"), (402, "Payment Required"),
   (403, "Forbidden"), (404, "Not Found"), (405, "Method Not Allowed"),
   (406, "Not Acceptable"), (407, "Proxy Authentication Required"),
   (408, "Request Timeout"), (409, "Conflict"), (410, "Gone"),
   (411, "Length Required"), (412, "Precondition Failed"),
   (413, "Request Entity Too Large"), (414, "Request-URI Too Long"),
   (415, "Unsupported Media Type"), (416, "Requested Range Not Satisfiable"),
   (417, "Expectation Failed"), (418, "I'm a Teapot"),
   (421, "Misdirected Request"), (422, "Unprocessable Entity"),
   (423, "Locked"), (424, "Failed Dependency"), (425, "Too Early"),
   (426, "Upgrade Required"), (428, "Precondition Required"),
   (429, "Too Many Requests"), (431, "Request Header Fields Too Large"),
   (451, "Unavailable For Legal Reasons"),
   (500, "Internal Server Error"), (501, "Not Implemented"),
   (502, "Bad Gateway"), (503, "Service Unavailable"),
   (504, "Gateway Timeout"), (505, "HTTP Version Not Supported"),
   (506, "Variant Also Negotiates"), (507, "Insufficient Storage"),
   (508, "Loop Detected"), (510, "Not Extended"),
   (511, "Network Authentication Required")]

/-- `responses.get(code)`: the standard textual name of a status code,
when there is one. -/
def responses_find (code : Nat) : Option String :=
  (responses.find? (fun p => p.1 == code)).map (fun p => p.2)

/-- `responses.get(code, dflt)`. -/
def responses_get (code : Nat) (dflt : String) : String :=
  (responses_find code).getD dflt

/-! ## A JSON decoder

A recursive-descent decoder in the style of Python's `json.loads`,
restricted to the value universe above: numbers are integers, object
members are accumulated with `dict` semantics (a repeated key keeps its
first position and its last value), a lone surrogate escape is
rejected (Lean characters are unicode scalar values).  Recursion in
`parseValue` is bounded by explicit fuel; `Json.loads` supplies fuel
sufficient for any input (one unit per character, plus one). -/

/-- Build a character from a code point, refusing invalid scalar values. -/
def mkChar (n : Nat) : Option Char :=
  if h : n.isValidChar then some (Char.ofNatAux n h) else none

/-- Drop leading JSON whitespace. -/
def skipWs : List Char → List Char
  | [] => []
  | c :: cs => if isWsC c then skipWs cs else c :: cs

/-- Read exactly four hex digits. -/
def parseHex4 : List Char → Option (Nat × List Char)
  | a :: b :: c :: d :: rest =>
    match hexVal a, hexVal b, hexVal c, hexVal d with
    | some va, some vb, some vc, some vd =>
      some (va * 4096 + vb * 256 + vc * 16 + vd, rest)
    | _, _, _, _ => none
  | _ => none

/-- Combine a high-surrogate value `n` and a low-surrogate value `m`
into one character (the second half of a `\uXXXX\uXXXX` pair). -/
def combineSurrogates (n m : Nat) (r3 : List Char) : Option (Char × List Char) :=
  if 56320 ≤ m ∧ m ≤ 57343 then
    (mkChar (65536 + (n - 55296) * 1024 + (m - 56320))).map (fun c => (c, r3))
  else none

/-- After a `\uXXXX` escape whose value `n` is a high surrogate: expect
a second `\uXXXX` escape holding the low surrogate. -/
def parseLowSurrogate (n : Nat) : List Char → Option (Char × List Char)
  | b1 :: b2 :: r2 =>
    if b1 = '\\' ∧ b2 = 'u' then
      match parseHex4 r2 with
      | none => none
      | some (m, r3) => combineSurrogates n m r3
    else none
  | _ => none

/-- Decode the rest of a `\u` escape: four hex digits, then possibly a
surrogate-pair continuation.  A lone surrogate is rejected (Lean
characters are unicode scalar values; `json.dumps` of a Python string
of scalar values never produces one). -/
def parseUEscape (r : List Char) : Option (Char × List Char) :=
  match parseHex4 r with
  | none => none
  | some (n, r1) =>
    if 55296 ≤ n ∧ n ≤ 56319 then parseLowSurrogate n r1
    else (mkChar n).map (fun c => (c, r1))

/-- Decode one escape sequence (the part after the backslash). -/
def parseEscape : List Char → Option (Char × List Char)
  | [] => none
  | e :: r =>
    if e = '"' then some ('"', r)
    else if e = '\\' then some ('\\', r)
    else if e = '/' then some ('/', r)
    else if e = 'b' then some (Char.ofNat 8, r)
    else if e = 'f' then some (Char.ofNat 12, r)
    else if e = 'n' then some ('\n', r)
    else if e = 'r' then some ('\r', r)
    else if e = 't' then some ('\t', r)
    else if e = 'u' then parseUEscape r
    else none

/-- Decode a string body after its opening quote: the decoded
characters and the rest of the input after the closing quote.  `fuel`
bounds the number of decoded characters; the input's length plus one is
always enough. -/
def parseStrBody : Nat → List Char → Option (List Char × List Char)
  | 0, _ => none
  | _ + 1, [] => none
  | fuel + 1, c :: rest =>
    if c = '"' then some ([], rest)
    else if c = '\\' then
      match parseEscape rest with
      | none => none
      | some (d, rest1) =>
        (parseStrBody fuel rest1).map (fun p => (d :: p.1, p.2))
    else if c.toNat < 32 then none
    else (parseStrBody fuel rest).map (fun p => (c :: p.1, p.2))

/-- Read a nonempty run of decimal digits as a natural number. -/
def parseNat (l : List Char) : Option (Nat × List Char) :=
  let ds := l.takeWhile isDigitC
  if ds = [] then none
  else some (ds.foldl (fun a c => a * 10 + digitVal c) 0, l.dropWhile isDigitC)

/-- Read an optionally signed integer. -/
def parseNumber : List Char → Option (Int × List Char)
  | [] => none
  | c :: rest =>
    if c = '-' then (parseNat rest).map (fun p => (-(p.1 : Int), p.2))
    else (parseNat (c :: rest)).map (fun p => ((p.1 : Int), p.2))

/-- Insert a member into an object with Python `dict` semantics: a
repeated key keeps its original position and takes the new value. -/
def dictInsert : JObj → String → Json → JObj
  | .nil, k, v => .cons k v .nil
  | .cons k1 v1 tl, k, v =>
    if k1 = k then .cons k1 v tl else .cons k1 v1 (dictInsert tl k v)

/-- Append two member lists. -/
def appendO : JObj → JObj → JObj
  | .nil, ms => ms
  | .cons k v tl, ms => .cons k v (appendO tl ms)

/-- Fold parsed members into a `dict`, left to right. -/
def objFoldAux : JObj → JObj → JObj
  | acc, .nil => acc
  | acc, .cons k v tl => objFoldAux (dictInsert acc k v) tl

/-- The `dict` built from parsed members in document order. -/
def objFold (ms : JObj) : JObj := objFoldAux .nil ms

/-- Whether the input starts with a decimal digit. -/
def startsDigit : List Char → Bool
  | [] => false
  | c :: _ => isDigitC c

mutual
/-- Decode one JSON value (leading whitespace allowed); returns the
value and the rest of the input. -/
def parseValue : Nat → List Char → Option (Json × List Char)
  | 0, _ => none
  | fuel + 1, l =>
    match skipWs l with
    | [] => none
    | c :: rest =>
      if c = 'n' then
        match rest with
        | 'u' :: 'l' :: 'l' :: r => some (.null, r)
        | _ => none
      else if c = 't' then
        match rest with
        | 'r' :: 'u' :: 'e' :: r => some (.bool true, r)
        | _ => none
      else if c = 'f' then
        match rest with
        | 'a' :: 'l' :: 's' :: 'e' :: r => some (.bool false, r)
        | _ => none
      else if c = '"' then
        (parseStrBody (rest.length + 1) rest).map
          (fun p => (.str (String.mk p.1), p.2))
      else if c = '[' then
        match skipWs rest with
        | [] => none
        | d :: r2 =>
          if d = ']' then some (.arr .nil, r2)
          else (parseElems fuel (d :: r2)).map (fun p => (.arr p.1, p.2))
      else if c = '{' then
        match skipWs rest with
        | [] => none
        | d :: r2 =>
          if d = '}' then some (.obj .nil, r2)
          else (parseMems fuel (d :: r2)).map
            (fun p => (.obj (objFold p.1), p.2))
      else (parseNumber (c :: rest)).map (fun p => (.int p.1, p.2))
/-- Decode the elements of a nonempty array, up to and including the
closing bracket. -/
def parseElems : Nat → List Char → Option (JArr × List Char)
  | 0, _ => none
  | fuel + 1, l =>
    match parseValue fuel l with
    | none => none
    | some (j, r1) =>
      match skipWs r1 with
      | [] => none
      | d :: r2 =>
        if d = ',' then
          (parseElems fuel (skipWs r2)).map (fun p => (.cons j p.1, p.2))
        else if d = ']' then some (.cons j .nil, r2)
        else none
/-- Decode the members of a nonempty object, up to and including the
closing brace. -/
def parseMems : Nat → List Char → Option (JObj × List Char)
  | 0, _ => none
  | fuel + 1, l =>
    match l with
    | [] => none
    | c :: rest =>
      if c = '"' then
        match parseStrBody (rest.length + 1) rest with
        | none => none
        | some (kcs, r1) =>
          match skipWs r1 with
          | [] => none
          | d :: r2 =>
            if d = ':' then
              match parseValue fuel (skipWs r2) with
              | none => none
              | some (v, r3) =>
                match skipWs r3 with
                | [] => none
                | e :: r4 =>
                  if e = ',' then
                    (parseMems fuel (skipWs r4)).map
                      (fun p => (.cons (String.mk kcs) v p.1, p.2))
                  else if e = '}' then
                    some (.cons (String.mk kcs) v .nil, r4)
                  else none
            else none
      else none
end

/-- `json.loads`: decode a complete document (trailing whitespace
allowed, trailing garbage refused). -/
def Json.loads (s : String) : Option Json :=
  match parseValue (s.data.length + 1) s.data with
  | some (j, rest) => if skipWs rest = [] then some j else none
  | none => none

/-! ## The handler state and the Tornado transport boundary

One streaming request handler, as seen through Tornado's
`RequestHandler` interface.  `wire` is the sequence of chunks that have
actually reached the peer connection; `buffer` is the handler's pending
output (`write` appends to it, `flush` moves it to the wire).  `isOpen`
is whether the peer connection is still writable (flipped by a client
disconnect); `finished` is whether `finish()` has run; `keepalive` is
the handler's `_keepalive` attribute. -/

/-- The state of one event-stream request handler. -/
structure HState where
  isOpen : Bool
  finished : Bool
  keepalive : Bool
  buffer : List String
  wire : List String
  log : List String
  uri : String
  deriving DecidableEq, Repr

/-- An exception crossing the handler boundary. -/
inductive Exc where
  /-- Tornado's `StreamClosedError`: a flush found the peer gone. -/
  | streamClosed
  /-- `RuntimeError`: `write()` after `finish()`. -/
  | runtimeError
  /-- `tornado.web.Finish`: the sanctioned "stop this handler now"
  control-flow signal. -/
  | finishExc
  deriving DecidableEq, Repr

/-- Models Tornado's exception handling around a handler method
(`RequestHandler._execute`): a raised `web.Finish` just finishes the
response, with no error page; any other exception is routed to
`send_error`, i.e. converted into an HTTP error response. -/
def convertsToHttpError : Exc → Bool
  | .finishExc => false
  | .streamClosed => true
  | .runtimeError => true

/-- Tornado's `RequestHandler.write`: buffers a chunk; raises
`RuntimeError` after `finish()`. -/
def rhWrite (s : HState) (chunk : String) : Except Exc HState :=
  if s.finished then .error .runtimeError
  else .ok { s with buffer := s.buffer ++ [chunk] }

/-- Tornado's `RequestHandler.flush`: hands the buffered chunks to the
connection; raises `StreamClosedError` when the peer has disconnected. -/
def rhFlush (s : HState) : Except Exc HState :=
  if s.isOpen then .ok { s with wire := s.wire ++ s.buffer, buffer := [] }
  else .error .streamClosed

/-- `EventStreamHandler.on_finish`: stop keepalive when finish has been
called. -/
def on_finish (s : HState) : HState := { s with keepalive := false }

/-- Tornado's `RequestHandler.finish`: flush what is buffered (a
`StreamClosedError` here is swallowed), mark the response finished, and
fire the `on_finish` callback. -/
def rhFinish (s : HState) : HState :=
  let s1 :=
    if s.isOpen then { s with wire := s.wire ++ s.buffer, buffer := [] }
    else { s with buffer := [] }
  on_finish { s1 with finished := true }

/-! ## The handler methods -/

/-- An event passed to `emit`: either already text
(`type(data) is str`) or a structured value to be JSON-serialized. -/
inductive Event where
  | text (s : String)
  | structured (j : Json)
  deriving DecidableEq

/-- A Python exception value as `extract_message` reads it:
`log_message` is its message template attribute (`none` models both a
missing attribute and `None`, either of which makes the `%` formatting
raise), `args` its declared format arguments.  Arguments are modelled
as strings, and `%`-formatting supports the `%s` and `%%` conversions,
which covers the templates the handlers see; any other conversion is
conservatively modelled as a formatting failure. -/
structure PyException where
  log_message : Option String
  args : List String
  deriving DecidableEq

/-- Python `%`-formatting of a template against a tuple of arguments;
`none` models a raised formatting error (too few arguments, leftover
arguments, an unsupported conversion, a trailing `%`). -/
def percentFormat : List Char → List String → Option (List Char)
  | [], args => if args = [] then some [] else none
  | c :: tl, args =>
    if c = '%' then
      match tl with
      | [] => none
      | d :: tl2 =>
        if d = 's' then
          match args with
          | [] => none
          | a :: rest => (percentFormat tl2 rest).map (fun r => a.data ++ r)
        else if d = '%' then (percentFormat tl2 args).map (fun r => '%' :: r)
        else none
    else (percentFormat tl args).map (fun r => c :: r)

/-- `BaseHandler.extract_message`: format the exception's declared
message template against its declared arguments; any failure falls back
to the empty message. -/
def extract_message (exc : PyException) : String :=
  match exc.log_message with
  | none => ""
  | some tmpl =>
    match percentFormat tmpl.data exc.args with
    | none => ""
    | some cs => String.mk cs

/-- The message `send_error` starts from: `''`, replaced by
`extract_message` when `exc_info` is present. -/
def extracted : Option PyException → String
  | none => ""
  | some exc => extract_message exc

/-- Python's `str.index`-style search: the smallest character index at
which `pat` occurs in `hay`, if any. -/
def strFind (hay pat : List Char) : Option Nat :=
  if pat.isPrefixOf hay then some 0
  else
    match hay with
    | [] => none
    | _ :: tl => (strFind tl pat).map (fun i => i + 1)

/-- `BaseHandler.get_spec_from_request`, whose `prefix` argument is
named `pfx` here: `self.request.path.index(pfx)` then the slice
`path[idx + len(pfx) + 1:]`, with no percent-decoding; `none` models
the `ValueError` raised by `str.index` when the prefix does not
occur. -/
def get_spec_from_request (path pfx : String) : Option String :=
  (strFind path.data pfx.data).map
    (fun idx => String.mk (path.data.drop (idx + pfx.data.length + 1)))

/-- `EventStreamHandler.KEEPALIVE_INTERVAL`, in seconds. -/
def KEEPALIVE_INTERVAL : Nat := 25

/-- `EventStreamHandler.emit`: serialize the event if it is not already
text, write one `data:` frame, flush; on `StreamClosedError` log one
warning naming the request and raise `web.Finish`.  The second
component is the exception propagating out of the call, if any. -/
def emit (s : HState) (data : Event) : HState × Option Exc :=
  let serialized_data :=
    match data with
    | .text t => t
    | .structured j => Json.dumps j
  match rhWrite s ("data: " ++ serialized_data ++ "\n\n") with
  | .error .streamClosed =>
    ({ s with log := s.log ++ ["Stream closed while handling " ++ s.uri] },
     some .finishExc)
  | .error e => (s, some e)
  | .ok s1 =>
    match rhFlush s1 with
    | .error .streamClosed =>
      ({ s1 with log := s1.log ++ ["Stream closed while handling " ++ s1.uri] },
       some .finishExc)
    | .error e => (s1, some e)
    | .ok s2 => (s2, none)

/-- `EventStreamHandler.send_error`: an event stream cannot change the
HTTP status, so write one terminal error event and finish.  The source
method is synchronous (it contains no `await`), so it is embedded as a
single atomic transition: nothing can interleave between its write and
its `finish()`. -/
def send_error (s : HState) (status_code : Nat) (exc_info : Option PyException) :
    HState × Option Exc :=
  let message := extracted exc_info
  let message :=
    if message = "" then responses_get status_code "Unknown HTTP Error"
    else message
  let evt := Json.dumps
    (.obj (.cons "phase" (.str "failed")
      (.cons "status_code" (.int status_code)
        (.cons "message" (.str (message ++ "\n")) .nil))))
  match rhWrite s ("data: " ++ evt ++ "\n\n") with
  | .error e => (s, some e)
  | .ok s1 => (rhFinish s1, none)

/-! ## The keepalive loop

`keep_alive` runs on the same cooperative event loop as the handler;
its only suspension point is its sleep.  The environment step `Env`
records what the rest of the session did during one sleep: whether the
handler finished (so Tornado fired `on_finish`, the source's `stop`
signal) and whether the client disconnected. -/

/-- What the rest of the session did while the loop slept. -/
structure Env where
  stop : Bool
  close : Bool
  deriving DecidableEq, Repr

/-- A no-op environment step. -/
def Env.idle : Env := ⟨false, false⟩

/-- Apply one environment step at the suspension point. -/
def applyEnv (e : Env) (s : HState) : HState :=
  let s1 := if e.stop then on_finish s else s
  if e.close then { s1 with isOpen := false } else s1

/-- One post-wake iteration of the keepalive loop body: re-check the
`_keepalive` flag, then try to write and flush the comment frame. -/
inductive TickResult where
  /-- The flag was false: `return` (normal exit, no write attempt). -/
  | exitFlag
  /-- The write or flush raised `StreamClosedError`: silent `return`. -/
  | exitClosed
  /-- The comment frame was written and flushed; loop again. -/
  | ticked
  /-- An exception other than `StreamClosedError` propagates. -/
  | excRaised (e : Exc)
  deriving DecidableEq, Repr

/-- The loop body after waking from its sleep. -/
def keepAliveTick (s : HState) : HState × TickResult :=
  if s.keepalive = false then (s, .exitFlag)
  else
    match rhWrite s ":keepalive\n\n" with
    | .error .streamClosed => (s, .exitClosed)
    | .error e => (s, .excRaised e)
    | .ok s1 =>
      match rhFlush s1 with
      | .error .streamClosed => (s1, .exitClosed)
      | .error e => (s1, .excRaised e)
      | .ok s2 => (s2, .ticked)

/-- One observable step of the keepalive task. -/
inductive KAStep where
  /-- `await asyncio.sleep(KEEPALIVE_INTERVAL)`. -/
  | slept
  /-- Exited normally at the flag re-check, without a write attempt. -/
  | exitFlag
  /-- Exited silently on `StreamClosedError`. -/
  | exitClosed
  /-- Exited with a propagating exception. -/
  | exitExc
  /-- Wrote and flushed one `:keepalive` comment frame. -/
  | ticked
  deriving DecidableEq, Repr

/-- The result of running the keepalive task. -/
structure KARun where
  state : HState
  steps : List KAStep
  exc : Option Exc
  deriving DecidableEq, Repr

/-- The `while True` loop of `keep_alive`: sleep (during which the
environment may act), then the loop body; `fuel` caps how many
iterations are observed (an exhausted fuel leaves the loop still
running, having produced the recorded steps). -/
def keepAliveLoop : Nat → List Env → HState → KARun
  | 0, _, s => ⟨s, [], none⟩
  | fuel + 1, envs, s =>
    let s1 := applyEnv (envs.headD Env.idle) s
    match keepAliveTick s1 with
    | (s2, .exitFlag) => ⟨s2, [.slept, .exitFlag], none⟩
    | (s2, .exitClosed) => ⟨s2, [.slept, .exitClosed], none⟩
    | (s2, .excRaised e) => ⟨s2, [.slept, .exitExc], some e⟩
    | (s2, .ticked) =>
      let r := keepAliveLoop fuel envs.tail s2
      ⟨r.state, .slept :: .ticked :: r.steps, r.exc⟩

/-- `EventStreamHandler.keep_alive`: set `_keepalive = True`, then
loop. -/
def keep_alive (fuel : Nat) (envs : List Env) (s : HState) : KARun :=
  keepAliveLoop fuel envs { s with keepalive := true }

/-! ## Response headers -/

/-- Tornado's `RequestHandler.set_header`: response header names are
case-insensitive; setting an existing name replaces its value. -/
def set_header : List (String × String) → String → String → List (String × String)
  | [], nm, v => [(nm, v)]
  | (k, w) :: tl, nm, v =>
    if lowerStr k = lowerStr nm then (k, v) :: tl
    else (k, w) :: set_header tl nm v

/-- Case-insensitive header lookup. -/
def headers_get : List (String × String) → String → Option String
  | [], _ => none
  | (k, w) :: tl, nm =>
    if lowerStr k = lowerStr nm then some w else headers_get tl nm

/-- `BaseHandler.set_default_headers`: set every globally configured
header (`self.settings.get('headers', {})`, a dict, modelled as an
association list in insertion order), then
`access-control-allow-headers: cache-control`. -/
def base_set_default_headers (cfg : List (String × String))
    (hs : List (String × String)) : List (String × String) :=
  set_header (cfg.foldl (fun acc p => set_header acc p.1 p.2) hs)
    "access-control-allow-headers" "cache-control"

/-- `EventStreamHandler.set_default_headers`: the base headers, then
`content-type: text/event-stream` and `cache-control: no-cache`. -/
def eventstream_set_default_headers (cfg : List (String × String))
    (hs : List (String × String)) : List (String × String) :=
  set_header
    (set_header (base_set_default_headers cfg hs) "content-type" "text/event-stream")
    "cache-control" "no-cache"

/-! ## Fuel measures for the decoder proofs -/

mutual
/-- Fuel sufficient for `parseValue` to decode `dumpChars j`. -/
def jsize : Json → Nat
  | .null => 1
  | .bool _ => 1
  | .int _ => 1
  | .str _ => 1
  | .arr elts => 1 + asize elts
  | .obj mems => 1 + osize mems
/-- Fuel sufficient for `parseElems` on dumped array items. -/
def asize : JArr → Nat
  | .nil => 0
  | .cons j tl => 1 + jsize j + asize tl
/-- Fuel sufficient for `parseMems` on dumped object members. -/
def osize : JObj → Nat
  | .nil => 0
  | .cons _ v tl => 1 + jsize v + osize tl
end

/-- The number of keepalive frames written in an observed run. -/
def countTicks : List KAStep → Nat
  | [] => 0
  | .ticked :: tl => countTicks tl + 1
  | _ :: tl => countTicks tl

/-! ## Characters and decimal printing: basic lemmas -/

theorem char_eq_of_toNat {c d : Char} (h : c.toNat = d.toNat) : c = d := by
  apply Char.ext
  apply UInt32.ext
  exact h

theorem isWsC_eq_false {c : Char} (h32 : c.toNat ≠ 32) (h9 : c.toNat ≠ 9)
    (h10 : c.toNat ≠ 10) (h13 : c.toNat ≠ 13) : isWsC c = false := by
  unfold isWsC
  have hs : c ≠ ' ' := fun h => h32 (by rw [h]; rfl)
  have ht : c ≠ '\t' := fun h => h9 (by rw [h]; rfl)
  have hn : c ≠ '\n' := fun h => h10 (by rw [h]; rfl)
  have hr : c ≠ '\r' := fun h => h13 (by rw [h]; rfl)
  simp [hs, ht, hn, hr]

theorem isWsC_false_of_digit {c : Char} (h : isDigitC c = true) : isWsC c = false := by
  simp only [isDigitC, Bool.and_eq_true, decide_eq_true_eq] at h
  exact isWsC_eq_false (by omega) (by omega) (by omega) (by omega)

theorem digit_ne {c : Char} (d : Char) (h : isDigitC c = true)
    (hd : isDigitC d = false) : c ≠ d := by
  intro he
  rw [he, hd] at h
  exact Bool.false_ne_true h

theorem digitVal_digitChar {d : Nat} (h : d < 10) : digitVal (digitChar d) = d := by
  interval_cases d <;> decide

theorem isDigitC_digitChar {d : Nat} (h : d < 10) : isDigitC (digitChar d) = true := by
  interval_cases d <;> decide

theorem natToCharsAux_ne_nil {fuel n : Nat} (h : n < fuel) :
    natToCharsAux fuel n ≠ [] := by
  cases fuel with
  | zero => omega
  | succ fuel =>
    rw [natToCharsAux]
    by_cases h10 : n < 10
    · simp [h10]
    · simp [h10]

theorem natToChars_ne_nil (n : Nat) : natToChars n ≠ [] :=
  natToCharsAux_ne_nil (by omega)

theorem natToCharsAux_digits {fuel n : Nat} (h : n < fuel) :
    ∀ c ∈ natToCharsAux fuel n, isDigitC c = true := by
  induction fuel generalizing n with
  | zero => omega
  | succ fuel ih =>
    rw [natToCharsAux]
    by_cases h10 : n < 10
    · simp only [if_pos h10, List.mem_singleton]
      intro c hc
      rw [hc]
      exact isDigitC_digitChar h10
    · simp only [if_neg h10, List.mem_append, List.mem_singleton]
      intro c hc
      rcases hc with hc | hc
      · exact ih (by omega) c hc
      · rw [hc]
        exact isDigitC_digitChar (by omega)

theorem natToChars_digits (n : Nat) : ∀ c ∈ natToChars n, isDigitC c = true :=
  natToCharsAux_digits (by omega)

theorem natToCharsAux_foldl {fuel n : Nat} (h : n < fuel) :
    (natToCharsAux fuel n).foldl (fun a c => a * 10 + digitVal c) 0 = n := by
  induction fuel generalizing n with
  | zero => omega
  | succ fuel ih =>
    rw [natToCharsAux]
    by_cases h10 : n < 10
    · simp only [if_pos h10, List.foldl_cons, List.foldl_nil]
      rw [digitVal_digitChar h10]
      omega
    · rw [if_neg h10, List.foldl_append]
      rw [ih (n := n / 10) (by omega)]
      simp only [List.foldl_cons, List.foldl_nil]
      rw [digitVal_digitChar (by omega)]
      omega

theorem natToChars_foldl (n : Nat) :
    (natToChars n).foldl (fun a c => a * 10 + digitVal c) 0 = n :=
  natToCharsAux_foldl (by omega)

/-! ## Number decoding inverts number printing -/

theorem takeWhile_append_digits {xs ys : List Char}
    (hxs : ∀ c ∈ xs, isDigitC c = true) (hys : startsDigit ys = false) :
    (xs ++ ys).takeWhile isDigitC = xs ∧ (xs ++ ys).dropWhile isDigitC = ys := by
  induction xs with
  | nil =>
    simp only [List.nil_append]
    cases ys with
    | nil => simp
    | cons y t =>
      have hy : isDigitC y = false := hys
      simp [List.takeWhile, List.dropWhile, hy]
  | cons x xs ih =>
    have hx : isDigitC x = true := hxs x (by simp)
    have ih2 := ih (fun c hc => hxs c (by simp [hc]))
    simp [List.takeWhile, List.dropWhile, hx, ih2.1, ih2.2]

theorem parseNat_natToChars (n : Nat) {ys : List Char}
    (hys : startsDigit ys = false) :
    parseNat (natToChars n ++ ys) = some (n, ys) := by
  have h := takeWhile_append_digits (natToChars_digits n) hys
  unfold parseNat
  rw [h.1, h.2]
  simp only [if_neg (natToChars_ne_nil n)]
  rw [natToChars_foldl]

theorem parseNumber_cons (c : Char) (rest : List Char) :
    parseNumber (c :: rest) =
      if c = '-' then (parseNat rest).map (fun p => (-(p.1 : Int), p.2))
      else (parseNat (c :: rest)).map (fun p => ((p.1 : Int), p.2)) := rfl

theorem parseNumber_intToChars (n : Int) {ys : List Char}
    (hys : startsDigit ys = false) :
    parseNumber (intToChars n ++ ys) = some (n, ys) := by
  unfold intToChars
  by_cases hneg : n < 0
  · rw [if_pos hneg]
    show parseNumber ('-' :: (natToChars (-n).toNat ++ ys)) = some (n, ys)
    rw [parseNumber_cons, if_pos rfl, parseNat_natToChars _ hys]
    simp only [Option.map_some']
    congr 2
    omega
  · rw [if_neg hneg]
    cases hnc : natToChars n.toNat with
    | nil => exact absurd hnc (natToChars_ne_nil _)
    | cons c cs =>
      have hc : isDigitC c = true := by
        have := natToChars_digits n.toNat
        rw [hnc] at this
        exact this c (by simp)
      show parseNumber (c :: (cs ++ ys)) = some (n, ys)
      have hcm : c ≠ '-' := digit_ne '-' hc (by decide)
      rw [parseNumber_cons, if_neg hcm]
      have : (c :: (cs ++ ys)) = natToChars n.toNat ++ ys := by rw [hnc]; rfl
      rw [this, parseNat_natToChars _ hys]
      simp only [Option.map_some']
      congr 2
      omega

/-! ## String decoding inverts `json.dumps` escaping -/

theorem hexVal_hexDigitChar {d : Nat} (h : d < 16) :
    hexVal (hexDigitChar d) = some d := by
  interval_cases d <;> decide

theorem parseHex4_hex4 {n : Nat} (h : n < 65536) (rest : List Char) :
    parseHex4 (hex4 n ++ rest) = some (n, rest) := by
  show parseHex4 (hexDigitChar (n / 4096 % 16) :: hexDigitChar (n / 256 % 16) ::
    hexDigitChar (n / 16 % 16) :: hexDigitChar (n % 16) :: rest) = some (n, rest)
  simp only [parseHex4]
  rw [hexVal_hexDigitChar (by omega), hexVal_hexDigitChar (by omega),
    hexVal_hexDigitChar (by omega), hexVal_hexDigitChar (by omega)]
  dsimp only []
  have harith : n / 4096 % 16 * 4096 + n / 256 % 16 * 256 + n / 16 % 16 * 16 + n % 16 = n := by
    omega
  rw [harith]

theorem char_valid_nat (c : Char) :
    c.toNat < 55296 ∨ (57344 ≤ c.toNat ∧ c.toNat < 1114112) := by
  have h := c.valid
  rcases h with h | h
  · left; exact h
  · right; exact ⟨h.1, h.2⟩

theorem mkChar_toNat (c : Char) : mkChar c.toNat = some c := by
  unfold mkChar
  have hv : c.toNat.isValidChar := c.valid
  rw [dif_pos hv]
  congr 1

theorem parseStrBody_backslash (fuel : Nat) (rest : List Char) :
    parseStrBody (fuel + 1) ('\\' :: rest) =
      match parseEscape rest with
      | none => none
      | some (d, rest1) =>
        (parseStrBody fuel rest1).map (fun p => (d :: p.1, p.2)) := by
  simp only [parseStrBody, if_true]
  rw [if_neg (by decide)]

theorem parseStrBody_plain {c : Char} (h1 : c ≠ '"') (h2 : c ≠ '\\')
    (h3 : ¬ c.toNat < 32) (fuel : Nat) (rest : List Char) :
    parseStrBody (fuel + 1) (c :: rest) =
      (parseStrBody fuel rest).map (fun p => (c :: p.1, p.2)) := by
  simp only [parseStrBody]
  rw [if_neg h1, if_neg h2, if_neg h3]

theorem parseEscape_u (r : List Char) : parseEscape ('u' :: r) = parseUEscape r := by
  simp only [parseEscape, if_true]
  rw [if_neg (by decide), if_neg (by decide), if_neg (by decide),
    if_neg (by decide), if_neg (by decide), if_neg (by decide),
    if_neg (by decide), if_neg (by decide)]

theorem parseUEscape_at {r : List Char} {n : Nat} {r1 : List Char}
    (h : parseHex4 r = some (n, r1)) :
    parseUEscape r =
      if 55296 ≤ n ∧ n ≤ 56319 then parseLowSurrogate n r1
      else (mkChar n).map (fun c => (c, r1)) := by
  unfold parseUEscape
  rw [h]

theorem parseLowSurrogate_at {r2 : List Char} {n m : Nat} {r3 : List Char}
    (h : parseHex4 r2 = some (m, r3)) :
    parseLowSurrogate n ('\\' :: 'u' :: r2) = combineSurrogates n m r3 := by
  simp only [parseLowSurrogate, if_true]
  rw [h, if_pos (show True ∧ True from ⟨trivial, trivial⟩)]

theorem combineSurrogates_at {m : Nat} (h : 56320 ≤ m ∧ m ≤ 57343) (n : Nat)
    (r3 : List Char) :
    combineSurrogates n m r3 =
      (mkChar (65536 + (n - 55296) * 1024 + (m - 56320))).map (fun c => (c, r3)) := by
  unfold combineSurrogates
  rw [if_pos h]

theorem parseEscape_quote (r : List Char) : parseEscape ('"' :: r) = some ('"', r) := by
  simp only [parseEscape, if_true]

theorem parseEscape_bs (r : List Char) : parseEscape ('\\' :: r) = some ('\\', r) := by
  simp only [parseEscape, if_true]
  rw [if_neg (by decide)]

theorem parseEscape_b (r : List Char) :
    parseEscape ('b' :: r) = some (Char.ofNat 8, r) := by
  simp only [parseEscape, if_true]
  rw [if_neg (by decide), if_neg (by decide), if_neg (by decide)]

theorem parseEscape_f (r : List Char) :
    parseEscape ('f' :: r) = some (Char.ofNat 12, r) := by
  simp only [parseEscape, if_true]
  rw [if_neg (by decide), if_neg (by decide), if_neg (by decide),
    if_neg (by decide)]

theorem parseEscape_n (r : List Char) : parseEscape ('n' :: r) = some ('\n', r) := by
  simp only [parseEscape, if_true]
  rw [if_neg (by decide), if_neg (by decide), if_neg (by decide),
    if_neg (by decide), if_neg (by decide)]

theorem parseEscape_r (r : List Char) : parseEscape ('r' :: r) = some ('\r', r) := by
  simp only [parseEscape, if_true]
  rw [if_neg (by decide), if_neg (by decide), if_neg (by decide),
    if_neg (by decide), if_neg (by decide), if_neg (by decide)]

theorem parseEscape_t (r : List Char) : parseEscape ('t' :: r) = some ('\t', r) := by
  simp only [parseEscape, if_true]
  rw [if_neg (by decide), if_neg (by decide), if_neg (by decide),
    if_neg (by decide), if_neg (by decide), if_neg (by decide),
    if_neg (by decide)]

theorem parseStrBody_escapeChar (fuel : Nat) (c : Char) (tail : List Char) :
    parseStrBody (fuel + 1) (escapeChar c ++ tail) =
      (parseStrBody fuel tail).map (fun p => (c :: p.1, p.2)) := by
  have hval := char_valid_nat c
  unfold escapeChar
  by_cases h1 : c = '"'
  · subst h1
    rw [if_pos rfl]
    show parseStrBody (fuel + 1) ('\\' :: '"' :: tail) = _
    rw [parseStrBody_backslash, parseEscape_quote]
  rw [if_neg h1]
  by_cases h2 : c = '\\'
  · subst h2
    rw [if_pos rfl]
    show parseStrBody (fuel + 1) ('\\' :: '\\' :: tail) = _
    rw [parseStrBody_backslash, parseEscape_bs]
  rw [if_neg h2]
  by_cases h3 : c = '\n'
  · subst h3
    rw [if_pos rfl]
    show parseStrBody (fuel + 1) ('\\' :: 'n' :: tail) = _
    rw [parseStrBody_backslash, parseEscape_n]
  rw [if_neg h3]
  by_cases h4 : c = '\r'
  · subst h4
    rw [if_pos rfl]
    show parseStrBody (fuel + 1) ('\\' :: 'r' :: tail) = _
    rw [parseStrBody_backslash, parseEscape_r]
  rw [if_neg h4]
  by_cases h5 : c = '\t'
  · subst h5
    rw [if_pos rfl]
    show parseStrBody (fuel + 1) ('\\' :: 't' :: tail) = _
    rw [parseStrBody_backslash, parseEscape_t]
  rw [if_neg h5]
  by_cases h6 : c.toNat = 8
  · rw [if_pos h6]
    have hc : c = Char.ofNat 8 := char_eq_of_toNat (by rw [h6]; rfl)
    show parseStrBody (fuel + 1) ('\\' :: 'b' :: tail) = _
    rw [parseStrBody_backslash, parseEscape_b, hc]
  rw [if_neg h6]
  by_cases h7 : c.toNat = 12
  · rw [if_pos h7]
    have hc : c = Char.ofNat 12 := char_eq_of_toNat (by rw [h7]; rfl)
    show parseStrBody (fuel + 1) ('\\' :: 'f' :: tail) = _
    rw [parseStrBody_backslash, parseEscape_f, hc]
  rw [if_neg h7]
  by_cases h8 : 32 ≤ c.toNat ∧ c.toNat ≤ 126
  · rw [if_pos h8]
    show parseStrBody (fuel + 1) (c :: tail) = _
    exact parseStrBody_plain h1 h2 (by omega) fuel tail
  rw [if_neg h8]
  by_cases h9 : c.toNat < 65536
  · rw [if_pos h9]
    show parseStrBody (fuel + 1) ('\\' :: ('u' :: (hex4 c.toNat ++ tail))) = _
    rw [parseStrBody_backslash, parseEscape_u, parseUEscape_at (parseHex4_hex4 h9 tail)]
    have hns : ¬ (55296 ≤ c.toNat ∧ c.toNat ≤ 56319) := by
      rcases hval with hv | hv <;> omega
    rw [if_neg hns, mkChar_toNat, Option.map_some']
  · rw [if_neg h9]
    show parseStrBody (fuel + 1)
      ('\\' :: ('u' :: (hex4 (55296 + (c.toNat - 65536) / 1024) ++
        ('\\' :: ('u' :: (hex4 (56320 + (c.toNat - 65536) % 1024) ++ tail)))))) = _
    rw [parseStrBody_backslash, parseEscape_u,
      parseUEscape_at (parseHex4_hex4 (n := 55296 + (c.toNat - 65536) / 1024)
        (by omega) ('\\' :: 'u' :: (hex4 (56320 + (c.toNat - 65536) % 1024) ++ tail)))]
    rw [if_pos (by omega : 55296 ≤ 55296 + (c.toNat - 65536) / 1024 ∧
      55296 + (c.toNat - 65536) / 1024 ≤ 56319)]
    rw [parseLowSurrogate_at (parseHex4_hex4 (n := 56320 + (c.toNat - 65536) % 1024)
      (by omega) tail)]
    rw [combineSurrogates_at (by omega) _ tail]
    have harith : 65536 + (55296 + (c.toNat - 65536) / 1024 - 55296) * 1024 +
        (56320 + (c.toNat - 65536) % 1024 - 56320) = c.toNat := by omega
    rw [harith, mkChar_toNat, Option.map_some']

theorem String_mk_data (s : String) : String.mk s.data = s := by
  cases s
  rfl

theorem escapeChar_length_pos (c : Char) : 1 ≤ (escapeChar c).length := by
  unfold escapeChar
  (repeat' split)
  all_goals simp [hex4]

theorem escapeStr_length (s : List Char) : s.length ≤ (escapeStr s).length := by
  induction s with
  | nil => simp [escapeStr]
  | cons c cs ih =>
    have h := escapeChar_length_pos c
    simp only [escapeStr, List.length_cons, List.length_append]
    omega

theorem key_fuel_bound (k r : List Char) :
    k.length + 1 ≤ (escapeStr k ++ r).length + 1 := by
  have h := escapeStr_length k
  rw [List.length_append]
  omega

theorem parseStrBody_escapeStr (s : List Char) :
    ∀ (fuel : Nat) (rest : List Char), s.length + 1 ≤ fuel →
      parseStrBody fuel (escapeStr s ++ '"' :: rest) = some (s, rest) := by
  induction s with
  | nil =>
    intro fuel rest hf
    match fuel, hf with
    | fuel + 1, _ => rfl
  | cons c cs ih =>
    intro fuel rest hf
    match fuel, hf with
    | fuel + 1, hf =>
      show parseStrBody (fuel + 1) ((escapeChar c ++ escapeStr cs) ++ '"' :: rest) = _
      rw [List.append_assoc, parseStrBody_escapeChar fuel c _]
      rw [ih fuel rest (by simpa using Nat.lt_succ_iff.mp (by simpa using hf))]
      rfl

/-! ## Whitespace and head-character facts -/

theorem skipWs_cons {c : Char} (h : isWsC c = false) (l : List Char) :
    skipWs (c :: l) = c :: l := by
  simp [skipWs, h]

theorem skipWs_space (l : List Char) : skipWs (' ' :: l) = skipWs l := by
  simp only [skipWs]
  rw [if_pos (by decide)]

theorem startsDigit_cons (c : Char) (l : List Char) :
    startsDigit (c :: l) = isDigitC c := rfl

theorem intToChars_head (n : Int) :
    ∃ d t, intToChars n = d :: t ∧ (d = '-' ∨ isDigitC d = true) := by
  unfold intToChars
  by_cases h : n < 0
  · rw [if_pos h]
    exact ⟨'-', natToChars (-n).toNat, rfl, Or.inl rfl⟩
  · rw [if_neg h]
    cases hnc : natToChars n.toNat with
    | nil => exact absurd hnc (natToChars_ne_nil _)
    | cons c cs =>
      refine ⟨c, cs, rfl, Or.inr ?_⟩
      have := natToChars_digits n.toNat
      rw [hnc] at this
      exact this c (by simp)

/-- The first character of a dumped value: never whitespace, never a
closing bracket, never a closing brace. -/
theorem dump_head_spec (j : Json) :
    ∃ c t, dumpChars j = c :: t ∧ isWsC c = false ∧ c ≠ ']' ∧ c ≠ '}' := by
  cases j with
  | null => refine ⟨'n', _, rfl, ?_, ?_, ?_⟩ <;> decide
  | bool b =>
    cases b with
    | true => refine ⟨'t', _, rfl, ?_, ?_, ?_⟩ <;> decide
    | false => refine ⟨'f', _, rfl, ?_, ?_, ?_⟩ <;> decide
  | int n =>
    obtain ⟨d, t, hd, hcase⟩ := intToChars_head n
    refine ⟨d, t, by simp only [dumpChars]; rw [hd], ?_, ?_, ?_⟩
    · rcases hcase with h | h
      · subst h; decide
      · exact isWsC_false_of_digit h
    · rcases hcase with h | h
      · subst h; decide
      · exact digit_ne _ h (by decide)
    · rcases hcase with h | h
      · subst h; decide
      · exact digit_ne _ h (by decide)
  | str s => refine ⟨'"', _, rfl, ?_, ?_, ?_⟩ <;> decide
  | arr elts => refine ⟨'[', _, rfl, ?_, ?_, ?_⟩ <;> decide
  | obj mems => refine ⟨'\x7b', _, rfl, ?_, ?_, ?_⟩ <;> decide

theorem skipWs_dump (j : Json) (r : List Char) :
    skipWs (dumpChars j ++ r) = dumpChars j ++ r := by
  obtain ⟨c, t, hd, hws, _, _⟩ := dump_head_spec j
  rw [hd]
  show skipWs (c :: (t ++ r)) = _
  rw [skipWs_cons hws]
  rfl

theorem dumpArr_head (j : Json) (tl : JArr) :
    ∃ c t, dumpArr (.cons j tl) = c :: t ∧ isWsC c = false ∧ c ≠ ']' := by
  obtain ⟨c, t, hd, hws, hne, _⟩ := dump_head_spec j
  cases tl with
  | nil => exact ⟨c, t, by simp only [dumpArr]; rw [hd], hws, hne⟩
  | cons j2 tl2 =>
    refine ⟨c, t ++ ',' :: ' ' :: dumpArr (.cons j2 tl2), ?_, hws, hne⟩
    simp only [dumpArr]
    rw [hd]
    rfl

theorem dumpObj_head (k : String) (v : Json) (tl : JObj) :
    ∃ t, dumpObj (.cons k v tl) = '"' :: t := by
  cases tl with
  | nil => exact ⟨_, rfl⟩
  | cons k2 v2 tl2 => exact ⟨_, rfl⟩

/-! ## Shape lemmas for the decoder on dumped input -/

theorem parseValue_null (fuel : Nat) (r : List Char) :
    parseValue (fuel + 1) ('n' :: 'u' :: 'l' :: 'l' :: r) = some (.null, r) := rfl

theorem parseValue_true (fuel : Nat) (r : List Char) :
    parseValue (fuel + 1) ('t' :: 'r' :: 'u' :: 'e' :: r) = some (.bool true, r) := rfl

theorem parseValue_false (fuel : Nat) (r : List Char) :
    parseValue (fuel + 1) ('f' :: 'a' :: 'l' :: 's' :: 'e' :: r) =
      some (.bool false, r) := rfl

theorem parseValue_str (fuel : Nat) (s : String) (r : List Char) :
    parseValue (fuel + 1) ('"' :: (escapeStr s.data ++ '"' :: r)) =
      some (.str s, r) := by
  simp only [parseValue]
  rw [skipWs_cons (by decide)]
  dsimp only []
  rw [if_neg (by decide), if_neg (by decide), if_neg (by decide), if_pos rfl]
  rw [parseStrBody_escapeStr s.data _ _ (key_fuel_bound s.data ('"' :: r))]
  rw [Option.map_some', String_mk_data]

theorem parseValue_other (fuel : Nat) {d : Char} (t : List Char)
    (hws : isWsC d = false) (hn : d ≠ 'n') (ht : d ≠ 't') (hf : d ≠ 'f')
    (hq : d ≠ '"') (hlb : d ≠ '[') (hob : d ≠ '\x7b') :
    parseValue (fuel + 1) (d :: t) =
      (parseNumber (d :: t)).map (fun p => (.int p.1, p.2)) := by
  simp only [parseValue]
  rw [skipWs_cons hws]
  dsimp only []
  rw [if_neg hn, if_neg ht, if_neg hf, if_neg hq, if_neg hlb, if_neg hob]

theorem parseValue_arr_nil (fuel : Nat) (r : List Char) :
    parseValue (fuel + 1) ('[' :: ']' :: r) = some (.arr .nil, r) := rfl

theorem parseValue_obj_nil (fuel : Nat) (r : List Char) :
    parseValue (fuel + 1) ('\x7b' :: '\x7d' :: r) = some (.obj .nil, r) := rfl

theorem parseValue_arr (fuel : Nat) {d : Char} (t : List Char)
    (hws : isWsC d = false) (hne : d ≠ ']') :
    parseValue (fuel + 1) ('[' :: d :: t) =
      (parseElems fuel (d :: t)).map (fun p => (.arr p.1, p.2)) := by
  simp only [parseValue]
  rw [skipWs_cons (by decide)]
  dsimp only []
  rw [if_neg (by decide), if_neg (by decide), if_neg (by decide),
    if_neg (by decide), if_pos rfl, skipWs_cons hws]
  dsimp only []
  rw [if_neg hne]

theorem parseValue_obj (fuel : Nat) {d : Char} (t : List Char)
    (hws : isWsC d = false) (hne : d ≠ '\x7d') :
    parseValue (fuel + 1) ('\x7b' :: d :: t) =
      (parseMems fuel (d :: t)).map (fun p => (.obj (objFold p.1), p.2)) := by
  simp only [parseValue]
  rw [skipWs_cons (by decide)]
  dsimp only []
  rw [if_neg (by decide), if_neg (by decide), if_neg (by decide),
    if_neg (by decide), if_neg (by decide), if_pos rfl, skipWs_cons hws]
  dsimp only []
  rw [if_neg hne]

theorem parseElems_last (fuel : Nat) {l : List Char} {j : Json} {r2 : List Char}
    (h : parseValue fuel l = some (j, ']' :: r2)) :
    parseElems (fuel + 1) l = some (.cons j .nil, r2) := by
  simp only [parseElems]
  rw [h]
  dsimp only []
  rw [skipWs_cons (by decide)]
  dsimp only []
  rw [if_neg (by decide), if_pos rfl]

theorem parseElems_more (fuel : Nat) {l : List Char} {j : Json} {x : List Char}
    (h : parseValue fuel l = some (j, ',' :: ' ' :: x)) :
    parseElems (fuel + 1) l =
      (parseElems fuel (skipWs x)).map (fun p => (.cons j p.1, p.2)) := by
  simp only [parseElems]
  rw [h]
  dsimp only []
  rw [skipWs_cons (by decide)]
  dsimp only []
  rw [if_pos rfl, skipWs_space]

theorem parseMems_last (fuel : Nat) (k : String) {x : List Char} {v : Json}
    {r4 : List Char}
    (h : parseValue fuel (skipWs x) = some (v, '\x7d' :: r4)) :
    parseMems (fuel + 1) ('"' :: (escapeStr k.data ++ '"' :: ':' :: ' ' :: x)) =
      some (.cons k v .nil, r4) := by
  simp only [parseMems]
  rw [if_true]
  rw [parseStrBody_escapeStr k.data _ _
    (key_fuel_bound k.data ('"' :: ':' :: ' ' :: x))]
  dsimp only []
  rw [skipWs_cons (by decide)]
  dsimp only []
  rw [if_pos rfl, skipWs_space, h]
  dsimp only []
  rw [skipWs_cons (by decide)]
  dsimp only []
  rw [if_neg (by decide), if_pos rfl, String_mk_data]

theorem parseMems_more (fuel : Nat) (k : String) {x : List Char} {v : Json}
    {y : List Char}
    (h : parseValue fuel (skipWs x) = some (v, ',' :: ' ' :: y)) :
    parseMems (fuel + 1) ('"' :: (escapeStr k.data ++ '"' :: ':' :: ' ' :: x)) =
      (parseMems fuel (skipWs y)).map (fun p => (.cons k v p.1, p.2)) := by
  simp only [parseMems]
  rw [if_true]
  rw [parseStrBody_escapeStr k.data _ _
    (key_fuel_bound k.data ('"' :: ':' :: ' ' :: x))]
  dsimp only []
  rw [skipWs_cons (by decide)]
  dsimp only []
  rw [if_pos rfl, skipWs_space, h]
  dsimp only []
  rw [skipWs_cons (by decide)]
  dsimp only []
  rw [if_pos rfl, skipWs_space, String_mk_data]

/-! ## Object folding with `dict` semantics -/

theorem wfObj_cons {k : String} {v : Json} {tl : JObj}
    (h : wfObj (.cons k v tl) = true) :
    hasKey tl k = false ∧ Json.wf v = true ∧ wfObj tl = true := by
  have he : wfObj (.cons k v tl) = (!hasKey tl k && Json.wf v && wfObj tl) := rfl
  rw [he] at h
  simp only [Bool.and_eq_true, Bool.not_eq_true'] at h
  exact ⟨h.1.1, h.1.2, h.2⟩

theorem wfArr_cons {j : Json} {tl : JArr} (h : wfArr (.cons j tl) = true) :
    Json.wf j = true ∧ wfArr tl = true := by
  have he : wfArr (.cons j tl) = (Json.wf j && wfArr tl) := rfl
  rw [he] at h
  simpa [Bool.and_eq_true] using h

theorem appendO_nil : ∀ a : JObj, appendO a .nil = a
  | .nil => rfl
  | .cons k v tl => by simp [appendO, appendO_nil tl]

theorem appendO_assoc : ∀ a : JObj, ∀ b c : JObj,
    appendO (appendO a b) c = appendO a (appendO b c)
  | .nil => fun _ _ => rfl
  | .cons k v tl => fun b c => by simp [appendO, appendO_assoc tl b c]

theorem hasKey_appendO : ∀ a : JObj, ∀ (b : JObj) (k : String),
    hasKey (appendO a b) k = (hasKey a k || hasKey b k)
  | .nil => fun b k => by simp [appendO, hasKey]
  | .cons k1 v1 tl => fun b k => by
    simp [appendO, hasKey, hasKey_appendO tl b k, Bool.or_assoc]

theorem dictInsert_fresh : ∀ {acc : JObj} {k : String} (v : Json),
    hasKey acc k = false → dictInsert acc k v = appendO acc (.cons k v .nil)
  | .nil, k, v => fun _ => rfl
  | .cons k1 v1 tl, k, v => fun h => by
    simp only [hasKey, Bool.or_eq_false_iff, beq_eq_false_iff_ne, ne_eq] at h
    simp only [dictInsert, if_neg h.1, appendO]
    rw [dictInsert_fresh v h.2]

theorem objFoldAux_fresh : ∀ (ms acc : JObj),
    (∀ k2, hasKey ms k2 = true → hasKey acc k2 = false) → wfObj ms = true →
    objFoldAux acc ms = appendO acc ms
  | .nil, acc => fun _ _ => (appendO_nil acc).symm
  | .cons k v tl, acc => fun hfresh hwf => by
    have hwf' : hasKey tl k = false ∧ Json.wf v = true ∧ wfObj tl = true :=
      wfObj_cons hwf
    have hk : hasKey acc k = false := hfresh k (by simp [hasKey])
    show objFoldAux (dictInsert acc k v) tl = _
    rw [dictInsert_fresh v hk]
    rw [objFoldAux_fresh tl (appendO acc (.cons k v .nil)) ?fresh hwf'.2.2]
    · rw [appendO_assoc]
      rfl
    case fresh =>
      intro k2 hk2
      rw [hasKey_appendO]
      have h1 : hasKey acc k2 = false := hfresh k2 (by simp [hasKey, hk2])
      have h2 : (k == k2) = false := by
        by_cases he : k = k2
        · subst he; rw [hk2] at hwf'; exact absurd hwf'.1 (by simp)
        · simp [he]
      simp [hasKey, h1, h2]

theorem objFold_wf {ms : JObj} (h : wfObj ms = true) : objFold ms = ms := by
  unfold objFold
  rw [objFoldAux_fresh ms .nil (fun _ _ => rfl) h]
  rfl

/-! ## Size bounds: the decoder fuel supplied by `Json.loads` suffices -/

mutual
theorem jsize_le : ∀ j : Json, jsize j ≤ (dumpChars j).length
  | .null => by decide
  | .bool true => by decide
  | .bool false => by decide
  | .int n => by
    obtain ⟨d, t, hd, _⟩ := intToChars_head n
    simp [jsize, dumpChars, hd]
  | .str s => by simp [jsize, dumpChars]
  | .arr elts => by
    have h := asize_le elts
    simp only [jsize, dumpChars, List.length_cons, List.length_append]
    simp only [List.length_cons, List.length_nil]
    omega
  | .obj mems => by
    have h := osize_le mems
    simp only [jsize, dumpChars, List.length_cons, List.length_append]
    simp only [List.length_cons, List.length_nil]
    omega
theorem asize_le : ∀ xs : JArr, asize xs ≤ (dumpArr xs).length + 1
  | .nil => by simp [asize]
  | .cons j .nil => by
    have h := jsize_le j
    simp only [asize, dumpArr, asize]
    omega
  | .cons j (.cons j2 tl2) => by
    have h1 := jsize_le j
    have h2 := asize_le (.cons j2 tl2)
    have ha : asize (.cons j (.cons j2 tl2)) =
        1 + jsize j + asize (.cons j2 tl2) := rfl
    have hd : dumpArr (.cons j (.cons j2 tl2)) =
        dumpChars j ++ ',' :: ' ' :: dumpArr (.cons j2 tl2) := by
      simp [dumpArr]
    rw [ha, hd]
    simp only [List.length_append, List.length_cons]
    omega
theorem osize_le : ∀ ms : JObj, osize ms ≤ (dumpObj ms).length + 1
  | .nil => by simp [osize]
  | .cons k v .nil => by
    have h := jsize_le v
    simp only [osize, dumpObj, List.length_append, List.length_cons, osize]
    omega
  | .cons k v (.cons k2 v2 tl2) => by
    have h1 := jsize_le v
    have h2 := osize_le (.cons k2 v2 tl2)
    have ho : osize (.cons k v (.cons k2 v2 tl2)) =
        1 + jsize v + osize (.cons k2 v2 tl2) := rfl
    have hd : dumpObj (.cons k v (.cons k2 v2 tl2)) =
        ('"' :: escapeStr k.data ++ '"' :: ':' :: ' ' :: dumpChars v) ++
        ',' :: ' ' :: dumpObj (.cons k2 v2 tl2) := by
      simp [dumpObj]
    rw [ho, hd]
    simp only [List.length_append, List.length_cons]
    omega
end

/-! ## The decoder inverts the serializer -/

mutual
theorem parseValue_dump : ∀ (j : Json) (fuel : Nat) (rest : List Char),
    Json.wf j = true → jsize j ≤ fuel → startsDigit rest = false →
    parseValue fuel (dumpChars j ++ rest) = some (j, rest)
  | .null, fuel, rest => fun _ hsz _ => by
    cases fuel with
    | zero => simp [jsize] at hsz
    | succ f => exact parseValue_null f rest
  | .bool true, fuel, rest => fun _ hsz _ => by
    cases fuel with
    | zero => simp [jsize] at hsz
    | succ f => exact parseValue_true f rest
  | .bool false, fuel, rest => fun _ hsz _ => by
    cases fuel with
    | zero => simp [jsize] at hsz
    | succ f => exact parseValue_false f rest
  | .int n, fuel, rest => fun _ hsz hr => by
    cases fuel with
    | zero => simp [jsize] at hsz
    | succ f =>
      obtain ⟨d, t, hd, hcase⟩ := intToChars_head n
      have hshape : dumpChars (.int n) ++ rest = d :: (t ++ rest) := by
        simp only [dumpChars]
        rw [hd]
        rfl
      rw [hshape]
      rw [parseValue_other f (t ++ rest) ?ws ?n ?t ?f ?q ?lb ?ob]
      case ws =>
        rcases hcase with h | h
        · subst h; decide
        · exact isWsC_false_of_digit h
      case n =>
        rcases hcase with h | h
        · subst h; decide
        · exact digit_ne _ h (by decide)
      case t =>
        rcases hcase with h | h
        · subst h; decide
        · exact digit_ne _ h (by decide)
      case f =>
        rcases hcase with h | h
        · subst h; decide
        · exact digit_ne _ h (by decide)
      case q =>
        rcases hcase with h | h
        · subst h; decide
        · exact digit_ne _ h (by decide)
      case lb =>
        rcases hcase with h | h
        · subst h; decide
        · exact digit_ne _ h (by decide)
      case ob =>
        rcases hcase with h | h
        · subst h; decide
        · exact digit_ne _ h (by decide)
      have hback : d :: (t ++ rest) = intToChars n ++ rest := by
        rw [hd]
        rfl
      rw [hback, parseNumber_intToChars n hr]
      rfl
  | .str s, fuel, rest => fun _ hsz _ => by
    cases fuel with
    | zero => simp [jsize] at hsz
    | succ f =>
      have hshape : dumpChars (.str s) ++ rest =
          '"' :: (escapeStr s.data ++ '"' :: rest) := by
        simp [dumpChars]
      rw [hshape]
      exact parseValue_str f s rest
  | .arr .nil, fuel, rest => fun _ hsz _ => by
    cases fuel with
    | zero => simp [jsize] at hsz
    | succ f =>
      have hshape : dumpChars (.arr .nil) ++ rest = '[' :: ']' :: rest := by
        simp [dumpChars, dumpArr]
      rw [hshape]
      exact parseValue_arr_nil f rest
  | .arr (.cons j tl), fuel, rest => fun hwf hsz _ => by
    cases fuel with
    | zero => simp [jsize] at hsz
    | succ f =>
      have hwf' : wfArr (.cons j tl) = true := by simpa [Json.wf] using hwf
      have hsz' : asize (.cons j tl) ≤ f := by
        simp only [jsize] at hsz
        omega
      obtain ⟨d, t, hda, hws, hne⟩ := dumpArr_head j tl
      have hshape : dumpChars (.arr (.cons j tl)) ++ rest =
          '[' :: d :: (t ++ ']' :: rest) := by
        simp only [dumpChars]
        rw [hda]
        simp
      rw [hshape, parseValue_arr f (t ++ ']' :: rest) hws hne]
      have hback : d :: (t ++ ']' :: rest) = dumpArr (.cons j tl) ++ ']' :: rest := by
        rw [hda]
        rfl
      rw [hback, parseElems_dump j tl f rest hwf' hsz']
      rfl
  | .obj .nil, fuel, rest => fun _ hsz _ => by
    cases fuel with
    | zero => simp [jsize] at hsz
    | succ f =>
      have hshape : dumpChars (.obj .nil) ++ rest = '\x7b' :: '\x7d' :: rest := by
        simp [dumpChars, dumpObj]
      rw [hshape]
      exact parseValue_obj_nil f rest
  | .obj (.cons k v tl), fuel, rest => fun hwf hsz _ => by
    cases fuel with
    | zero => simp [jsize] at hsz
    | succ f =>
      have hwf' : wfObj (.cons k v tl) = true := by simpa [Json.wf] using hwf
      have hsz' : osize (.cons k v tl) ≤ f := by
        simp only [jsize] at hsz
        omega
      obtain ⟨t, hdo⟩ := dumpObj_head k v tl
      have hshape : dumpChars (.obj (.cons k v tl)) ++ rest =
          '\x7b' :: '"' :: (t ++ '\x7d' :: rest) := by
        simp only [dumpChars]
        rw [hdo]
        simp
      rw [hshape, parseValue_obj f (t ++ '\x7d' :: rest) (by decide) (by decide)]
      have hback : '"' :: (t ++ '\x7d' :: rest) =
          dumpObj (.cons k v tl) ++ '\x7d' :: rest := by
        rw [hdo]
        rfl
      rw [hback, parseMems_dump k v tl f rest hwf' hsz']
      rw [Option.map_some', objFold_wf hwf']
termination_by j _ _ => sizeOf j
decreasing_by all_goals (simp_wf; try omega)
theorem parseElems_dump : ∀ (j : Json) (tl : JArr) (fuel : Nat) (rest : List Char),
    wfArr (.cons j tl) = true → asize (.cons j tl) ≤ fuel →
    parseElems fuel (dumpArr (.cons j tl) ++ ']' :: rest) = some (.cons j tl, rest)
  | j, .nil, fuel, rest => fun hwf hsz => by
    cases fuel with
    | zero => simp [asize] at hsz
    | succ f =>
      have hwfj : Json.wf j = true := (wfArr_cons hwf).1
      have hszj : jsize j ≤ f := by
        simp only [asize] at hsz
        omega
      have h := parseValue_dump j f (']' :: rest) hwfj hszj
        (by rw [startsDigit_cons]; decide)
      have hda : dumpArr (.cons j .nil) = dumpChars j := by simp [dumpArr]
      rw [hda]
      exact parseElems_last f h
  | j, .cons j2 tl2, fuel, rest => fun hwf hsz => by
    cases fuel with
    | zero => simp [asize] at hsz
    | succ f =>
      have hwf' : Json.wf j = true ∧ wfArr (.cons j2 tl2) = true :=
        wfArr_cons hwf
      have hszs : jsize j ≤ f ∧ asize (.cons j2 tl2) ≤ f := by
        simp only [asize] at hsz ⊢
        omega
      have hshape : dumpArr (.cons j (.cons j2 tl2)) ++ ']' :: rest =
          dumpChars j ++ ',' :: ' ' :: (dumpArr (.cons j2 tl2) ++ ']' :: rest) := by
        simp [dumpArr]
      rw [hshape]
      have h := parseValue_dump j f
        (',' :: ' ' :: (dumpArr (.cons j2 tl2) ++ ']' :: rest)) hwf'.1 hszs.1
        (by rw [startsDigit_cons]; decide)
      rw [parseElems_more f h]
      obtain ⟨c2, t2, hda2, hws2, _⟩ := dumpArr_head j2 tl2
      have hskip : skipWs (dumpArr (.cons j2 tl2) ++ ']' :: rest) =
          dumpArr (.cons j2 tl2) ++ ']' :: rest := by
        rw [hda2]
        show skipWs (c2 :: (t2 ++ _)) = _
        rw [skipWs_cons hws2]
        rfl
      rw [hskip, parseElems_dump j2 tl2 f rest hwf'.2 hszs.2]
      rfl
termination_by j tl _ _ => sizeOf (JArr.cons j tl)
decreasing_by all_goals (simp_wf; try omega)
theorem parseMems_dump : ∀ (k : String) (v : Json) (tl : JObj) (fuel : Nat)
    (rest : List Char),
    wfObj (.cons k v tl) = true → osize (.cons k v tl) ≤ fuel →
    parseMems fuel (dumpObj (.cons k v tl) ++ '\x7d' :: rest) =
      some (.cons k v tl, rest)
  | k, v, .nil, fuel, rest => fun hwf hsz => by
    cases fuel with
    | zero => simp [osize] at hsz
    | succ f =>
      have hwfv : Json.wf v = true := (wfObj_cons hwf).2.1
      have hszv : jsize v ≤ f := by
        simp only [osize] at hsz
        omega
      have hshape : dumpObj (.cons k v .nil) ++ '\x7d' :: rest =
          '"' :: (escapeStr k.data ++ '"' :: ':' :: ' ' ::
            (dumpChars v ++ '\x7d' :: rest)) := by
        simp [dumpObj]
      rw [hshape]
      refine parseMems_last f k ?_
      rw [skipWs_dump]
      exact parseValue_dump v f ('\x7d' :: rest) hwfv hszv
        (by rw [startsDigit_cons]; decide)
  | k, v, .cons k2 v2 tl2, fuel, rest => fun hwf hsz => by
    cases fuel with
    | zero => simp [osize] at hsz
    | succ f =>
      have hw := wfObj_cons hwf
      have hwfv : Json.wf v = true := hw.2.1
      have hwftl : wfObj (.cons k2 v2 tl2) = true := hw.2.2
      have hszs : jsize v ≤ f ∧ osize (.cons k2 v2 tl2) ≤ f := by
        simp only [osize] at hsz ⊢
        omega
      have hshape : dumpObj (.cons k v (.cons k2 v2 tl2)) ++ '\x7d' :: rest =
          '"' :: (escapeStr k.data ++ '"' :: ':' :: ' ' ::
            (dumpChars v ++ ',' :: ' ' ::
              (dumpObj (.cons k2 v2 tl2) ++ '\x7d' :: rest))) := by
        simp [dumpObj]
      rw [hshape]
      have h : parseValue f
          (skipWs (dumpChars v ++ ',' :: ' ' ::
            (dumpObj (.cons k2 v2 tl2) ++ '\x7d' :: rest))) =
          some (v, ',' :: ' ' ::
            (dumpObj (.cons k2 v2 tl2) ++ '\x7d' :: rest)) := by
        rw [skipWs_dump]
        exact parseValue_dump v f _ hwfv hszs.1 (by rw [startsDigit_cons]; decide)
      rw [parseMems_more f k h]
      obtain ⟨t2, hdo2⟩ := dumpObj_head k2 v2 tl2
      have hskip : skipWs (dumpObj (.cons k2 v2 tl2) ++ '\x7d' :: rest) =
          dumpObj (.cons k2 v2 tl2) ++ '\x7d' :: rest := by
        rw [hdo2]
        show skipWs ('"' :: (t2 ++ _)) = _
        rw [skipWs_cons (by decide)]
        rfl
      rw [hskip, parseMems_dump k2 v2 tl2 f rest hwftl hszs.2]
      rfl
termination_by k v tl _ _ => sizeOf (JObj.cons k v tl)
decreasing_by all_goals (simp_wf; try omega)
end

/-- Round trip: decoding the canonical serialization of any
well-formed value yields the value back. -/
theorem loads_dumps (j : Json) (hwf : Json.wf j = true) :
    Json.loads (Json.dumps j) = some j := by
  have hsz := jsize_le j
  have h := parseValue_dump j ((dumpChars j).length + 1) [] hwf (by omega) rfl
  rw [List.append_nil] at h
  unfold Json.loads Json.dumps
  rw [show (String.mk (dumpChars j)).data = dumpChars j from rfl, h]
  dsimp only []
  rw [if_pos (show skipWs ([] : List Char) = [] from rfl)]

/-! ## Response-header lemmas -/

theorem headers_get_set : ∀ (hs : List (String × String)) (n v m : String),
    headers_get (set_header hs n v) m =
      if lowerStr m = lowerStr n then some v else headers_get hs m
  | [], n, v, m => by
    by_cases h : lowerStr m = lowerStr n
    · rw [if_pos h]
      show (if lowerStr n = lowerStr m then some v else headers_get [] m) = some v
      rw [if_pos h.symm]
    · rw [if_neg h]
      show (if lowerStr n = lowerStr m then some v else headers_get [] m) =
        headers_get [] m
      rw [if_neg (fun he => h he.symm)]
  | (k, w) :: tl, n, v, m => by
    by_cases hkn : lowerStr k = lowerStr n
    · simp only [set_header, if_pos hkn, headers_get]
      by_cases hkm : lowerStr k = lowerStr m
      · rw [if_pos hkm, if_pos (hkm.symm.trans hkn)]
      · rw [if_neg hkm, if_neg (fun hmn => hkm (hkn.trans hmn.symm)), if_neg hkm]
    · simp only [set_header, if_neg hkn, headers_get]
      by_cases hkm : lowerStr k = lowerStr m
      · rw [if_pos hkm, if_neg (fun hmn => hkn (hkm.trans hmn)), if_pos hkm]
      · rw [if_neg hkm, headers_get_set tl n v m]
        by_cases hmn : lowerStr m = lowerStr n
        · rw [if_pos hmn, if_pos hmn]
        · rw [if_neg hmn, if_neg hmn, if_neg hkm]

theorem headers_get_fold_notmem :
    ∀ (cfg : List (String × String)) (hs : List (String × String)) (m : String),
    lowerStr m ∉ cfg.map (fun q => lowerStr q.1) →
    headers_get (cfg.foldl (fun acc q => set_header acc q.1 q.2) hs) m =
      headers_get hs m
  | [], hs, m => fun _ => rfl
  | q :: cfg, hs, m => fun hnm => by
    simp only [List.map_cons, List.mem_cons, not_or] at hnm
    show headers_get (cfg.foldl (fun acc q => set_header acc q.1 q.2)
      (set_header hs q.1 q.2)) m = _
    rw [headers_get_fold_notmem cfg _ m hnm.2, headers_get_set,
      if_neg hnm.1]

theorem headers_get_fold_mem :
    ∀ (cfg : List (String × String)) (hs : List (String × String))
      (p : String × String),
    p ∈ cfg → (cfg.map (fun q => lowerStr q.1)).Nodup →
    headers_get (cfg.foldl (fun acc q => set_header acc q.1 q.2) hs) p.1 =
      some p.2
  | [], hs, p => fun hp _ => absurd hp (List.not_mem_nil p)
  | q :: cfg, hs, p => fun hp hnd => by
    simp only [List.map_cons, List.nodup_cons] at hnd
    rcases List.mem_cons.mp hp with he | ht
    · subst he
      show headers_get (cfg.foldl (fun acc q => set_header acc q.1 q.2)
        (set_header hs p.1 p.2)) p.1 = some p.2
      rw [headers_get_fold_notmem cfg _ p.1 hnd.1, headers_get_set, if_pos rfl]
    · exact headers_get_fold_mem cfg (set_header hs q.1 q.2) p ht hnd.2

/-! ## Path-search lemmas -/

theorem strFind_some : ∀ {hay pat : List Char} {i : Nat},
    strFind hay pat = some i →
    pat.isPrefixOf (hay.drop i) = true ∧
      ∀ j, j < i → pat.isPrefixOf (hay.drop j) = false := by
  intro hay
  induction hay with
  | nil =>
    intro pat i h
    unfold strFind at h
    by_cases hp : pat.isPrefixOf [] = true
    · rw [if_pos hp] at h
      cases h
      exact ⟨hp, fun j hj => absurd hj (Nat.not_lt_zero j)⟩
    · rw [if_neg hp] at h
      dsimp only [] at h
      cases h
  | cons c t ih =>
    intro pat i h
    unfold strFind at h
    by_cases hp : pat.isPrefixOf (c :: t) = true
    · rw [if_pos hp] at h
      cases h
      exact ⟨hp, fun j hj => absurd hj (Nat.not_lt_zero j)⟩
    · rw [if_neg hp] at h
      dsimp only [] at h
      cases hf : strFind t pat with
      | none => rw [hf] at h; cases h
      | some i2 =>
        rw [hf] at h
        simp only [Option.map_some', Option.some.injEq] at h
        subst h
        obtain ⟨h1, h2⟩ := ih hf
        refine ⟨h1, ?_⟩
        intro j hj
        cases j with
        | zero =>
          simp only [Bool.not_eq_true] at hp
          simpa using hp
        | succ j2 => exact h2 j2 (by omega)

theorem strFind_none : ∀ {hay pat : List Char},
    strFind hay pat = none → ∀ i, pat.isPrefixOf (hay.drop i) = false := by
  intro hay
  induction hay with
  | nil =>
    intro pat h i
    unfold strFind at h
    by_cases hp : pat.isPrefixOf [] = true
    · rw [if_pos hp] at h; cases h
    · rw [if_neg hp] at h
      have hdrop : (List.drop i [] : List Char) = [] := by simp
      rw [hdrop]
      simp only [Bool.not_eq_true] at hp
      exact hp
  | cons c t ih =>
    intro pat h i
    unfold strFind at h
    by_cases hp : pat.isPrefixOf (c :: t) = true
    · rw [if_pos hp] at h; cases h
    · rw [if_neg hp] at h
      dsimp only [] at h
      cases hf : strFind t pat with
      | none =>
        cases i with
        | zero =>
          simp only [Bool.not_eq_true] at hp
          simpa using hp
        | succ i2 => exact ih hf i2
      | some i2 => rw [hf] at h; cases h

/-! ## Keepalive-loop lemmas -/

theorem applyEnv_keepalive_stop {e : Env} (he : e.stop = true) (s : HState) :
    (applyEnv e s).keepalive = false := by
  unfold applyEnv on_finish
  rw [if_pos he]
  cases hc : e.close <;> simp [hc]

theorem applyEnv_wire (e : Env) (s : HState) : (applyEnv e s).wire = s.wire := by
  unfold applyEnv on_finish
  cases he : e.stop <;> cases hc : e.close <;> simp [he, hc]

theorem applyEnv_idle (s : HState) : applyEnv Env.idle s = s := rfl

theorem keepAliveTick_stop {s : HState} (h : s.keepalive = false) :
    keepAliveTick s = (s, .exitFlag) := by
  simp [keepAliveTick, h]

theorem countTicks_loop_le :
    ∀ (fuel : Nat) (envs : List Env) (s : HState) (i : Nat) (e : Env),
    envs.get? i = some e → e.stop = true →
    countTicks (keepAliveLoop fuel envs s).steps ≤ i := by
  intro fuel
  induction fuel with
  | zero =>
    intro envs s i e _ _
    simp [keepAliveLoop, countTicks]
  | succ f ih =>
    intro envs s i e hget hstop
    rcases htick : keepAliveTick (applyEnv (envs.headD Env.idle) s) with ⟨s2, tr⟩
    cases tr with
    | exitFlag =>
      simp only [keepAliveLoop, htick]
      simp [countTicks]
    | exitClosed =>
      simp only [keepAliveLoop, htick]
      simp [countTicks]
    | excRaised e2 =>
      simp only [keepAliveLoop, htick]
      simp [countTicks]
    | ticked =>
      cases i with
      | zero =>
        exfalso
        cases envs with
        | nil => cases hget
        | cons e1 t1 =>
          have he1 : e1 = e := by
            have : some e1 = some e := hget
            cases this
            rfl
          subst he1
          have hka : (applyEnv ((e1 :: t1).headD Env.idle) s).keepalive = false :=
            applyEnv_keepalive_stop hstop s
          rw [keepAliveTick_stop hka] at htick
          cases htick
      | succ i2 =>
        simp only [keepAliveLoop, htick]
        have htail : envs.tail.get? i2 = some e := by
          cases envs with
          | nil => cases hget
          | cons e1 t1 => exact hget
        have := ih envs.tail s2 i2 e htail hstop
        simp only [countTicks]
        omega

theorem keepAliveLoop_stop_first (fuel : Nat) (envs : List Env) (s : HState)
    (hstop : (envs.headD Env.idle).stop = true) :
    keepAliveLoop (fuel + 1) envs s =
      ⟨applyEnv (envs.headD Env.idle) s, [.slept, .exitFlag], none⟩ := by
  have hka : (applyEnv (envs.headD Env.idle) s).keepalive = false :=
    applyEnv_keepalive_stop hstop s
  simp only [keepAliveLoop, keepAliveTick_stop hka]

theorem keepAliveLoop_trace_shape :
    ∀ (fuel : Nat) (envs : List Env) (s : HState),
    (keepAliveLoop fuel envs s).steps.get? 0 ≠ some KAStep.ticked ∧
    ∀ i, (keepAliveLoop fuel envs s).steps.get? (i + 1) = some KAStep.ticked →
      (keepAliveLoop fuel envs s).steps.get? i = some KAStep.slept := by
  intro fuel
  induction fuel with
  | zero =>
    intro envs s
    refine ⟨by simp [keepAliveLoop], ?_⟩
    intro i h
    simp [keepAliveLoop] at h
  | succ f ih =>
    intro envs s
    rcases htick : keepAliveTick (applyEnv (envs.headD Env.idle) s) with ⟨s2, tr⟩
    cases tr with
    | exitFlag =>
      simp only [keepAliveLoop, htick]
      refine ⟨by simp, ?_⟩
      intro i h
      cases i with
      | zero => simp at h
      | succ i2 => simp at h
    | exitClosed =>
      simp only [keepAliveLoop, htick]
      refine ⟨by simp, ?_⟩
      intro i h
      cases i with
      | zero => simp at h
      | succ i2 => simp at h
    | excRaised e2 =>
      simp only [keepAliveLoop, htick]
      refine ⟨by simp, ?_⟩
      intro i h
      cases i with
      | zero => simp at h
      | succ i2 => simp at h
    | ticked =>
      simp only [keepAliveLoop, htick]
      obtain ⟨ih1, ih2⟩ := ih envs.tail s2
      refine ⟨by simp, ?_⟩
      intro i h
      cases i with
      | zero => simp
      | succ i2 =>
        cases i2 with
        | zero =>
          exfalso
          simp only [List.get?_cons_succ] at h
          exact ih1 h
        | succ i3 =>
          simp only [List.get?_cons_succ] at h ⊢
          exact ih2 i3 h

/-! ## The claims -/

/-- C1: For a mid-stream failure with status code `code` and a non-empty
extracted message, `send_error` writes exactly one data frame whose
payload is the JSON encoding of
`{phase: "failed", status_code: code, message: message + "\n"}` and then
closes the session; the source method is synchronous (no `await`), so
the write and the close form one atomic transition with no asynchronous
suspension between them.  In particular the terminal frame for status
500 and message `"boom"` decodes to exactly that object. -/
theorem send_error_midstream_writes_terminal_event (s : HState) (code : Nat)
    (exc : PyException)
    (hopen : s.isOpen = true) (hfin : s.finished = false) (hbuf : s.buffer = [])
    (hmsg : extract_message exc ≠ "") :
    (send_error s code (some exc)).2 = none ∧
    (send_error s code (some exc)).1.wire = s.wire ++
      ["data: " ++ Json.dumps (.obj (.cons "phase" (.str "failed")
        (.cons "status_code" (.int code)
          (.cons "message" (.str (extract_message exc ++ "\n")) .nil)))) ++ "\n\n"] ∧
    (send_error s code (some exc)).1.finished = true ∧
    (send_error s code (some exc)).1.keepalive = false ∧
    Json.loads (Json.dumps (.obj (.cons "phase" (.str "failed")
      (.cons "status_code" (.int 500)
        (.cons "message" (.str ("boom" ++ "\n")) .nil))))) =
      some (.obj (.cons "phase" (.str "failed")
        (.cons "status_code" (.int 500)
          (.cons "message" (.str ("boom" ++ "\n")) .nil)))) := by
  have hdec := loads_dumps (.obj (.cons "phase" (.str "failed")
      (.cons "status_code" (.int 500)
        (.cons "message" (.str ("boom" ++ "\n")) .nil)))) (by decide)
  refine ⟨?_, ?_, ?_, ?_, hdec⟩ <;>
    simp [send_error, extracted, hmsg, rhWrite, rhFinish, on_finish,
      hopen, hfin, hbuf]

theorem send_error_midstream_witness :
    (send_error ⟨true, false, true, [], ["data: one\n\n"], [], "/build/gh/o/r"⟩
      500 (some ⟨some "boom", []⟩)).1.wire =
      ["data: one\n\n",
       "data: " ++ Json.dumps (.obj (.cons "phase" (.str "failed")
         (.cons "status_code" (.int 500)
           (.cons "message" (.str ("boom" ++ "\n")) .nil)))) ++ "\n\n"] := by
  have h := send_error_midstream_writes_terminal_event
    ⟨true, false, true, [], ["data: one\n\n"], [], "/build/gh/o/r"⟩ 500
    ⟨some "boom", []⟩ rfl rfl rfl (by decide)
  have hm : extract_message ⟨some "boom", []⟩ = "boom" := by decide
  rw [hm] at h
  exact h.2.1

/-- C2: once the session is closed (the handler has finished, or the
transport is no longer open), neither `emit`, nor a keepalive tick, nor
`send_error` puts any further chunk on the connection. -/
theorem closed_session_no_further_writes (s : HState)
    (h : s.finished = true ∨ s.isOpen = false) :
    (∀ d : Event, (emit s d).1.wire = s.wire) ∧
    (keepAliveTick s).1.wire = s.wire ∧
    (∀ (code : Nat) (exc_info : Option PyException),
      (send_error s code exc_info).1.wire = s.wire) := by
  by_cases hf : s.finished = true
  · refine ⟨fun d => ?_, ?_, fun code exc_info => ?_⟩
    · simp [emit, rhWrite, hf]
    · by_cases hk : s.keepalive = false
      · rw [keepAliveTick_stop hk]
      · simp [keepAliveTick, hk, rhWrite, hf]
    · simp [send_error, rhWrite, hf]
  · have hfin : s.finished = false := by
      cases hh : s.finished
      · rfl
      · exact absurd hh hf
    have ho : s.isOpen = false := by
      rcases h with h1 | h2
      · exact absurd h1 hf
      · exact h2
    refine ⟨fun d => ?_, ?_, fun code exc_info => ?_⟩
    · simp [emit, rhWrite, rhFlush, hfin, ho]
    · by_cases hk : s.keepalive = false
      · rw [keepAliveTick_stop hk]
      · simp [keepAliveTick, hk, rhWrite, rhFlush, hfin, ho]
    · simp [send_error, rhWrite, rhFinish, on_finish, hfin, ho]

theorem closed_session_witness :
    (emit ⟨true, true, false, [], ["data: prior\n\n"], [], "/u"⟩
      (.text "x")).1.wire = ["data: prior\n\n"] ∧
    (send_error ⟨false, false, true, [], ["data: prior\n\n"], [], "/u"⟩
      500 none).1.wire = ["data: prior\n\n"] := by
  have h1 := closed_session_no_further_writes
    ⟨true, true, false, [], ["data: prior\n\n"], [], "/u"⟩ (Or.inl rfl)
  have h2 := closed_session_no_further_writes
    ⟨false, false, true, [], ["data: prior\n\n"], [], "/u"⟩ (Or.inr rfl)
  exact ⟨h1.1 (.text "x"), h2.2.2 500 none⟩

/-- C3: when the transport has closed under a streaming handler, `emit`
leaves the connection closed, logs exactly one warning naming the
request URI, writes nothing to the connection, and raises the
`web.Finish` control-flow signal, which Tornado does not convert into
an HTTP error response. -/
theorem emit_stream_closed_short_circuit (s : HState) (d : Event)
    (hopen : s.isOpen = false) (hfin : s.finished = false) :
    (emit s d).2 = some Exc.finishExc ∧
    (emit s d).1.isOpen = false ∧
    (emit s d).1.wire = s.wire ∧
    (emit s d).1.log = s.log ++ ["Stream closed while handling " ++ s.uri] ∧
    convertsToHttpError Exc.finishExc = false := by
  refine ⟨?_, ?_, ?_, ?_, rfl⟩ <;> simp [emit, rhWrite, rhFlush, hopen, hfin]

theorem emit_stream_closed_witness :
    (emit ⟨false, false, true, [], [], [], "/build/gh/o/r"⟩ (.text "e")).2 =
      some Exc.finishExc ∧
    (emit ⟨false, false, true, [], [], [], "/build/gh/o/r"⟩ (.text "e")).1.log =
      ["Stream closed while handling /build/gh/o/r"] := by
  have h := emit_stream_closed_short_circuit
    ⟨false, false, true, [], [], [], "/build/gh/o/r"⟩ (.text "e") rfl rfl
  exact ⟨h.1, h.2.2.2.1⟩

/-- C4: the keepalive loop re-checks `_keepalive` immediately after
waking, before attempting any write: if `stop` (`on_finish`) ran during
the sleep of iteration `i`, at most `i` keepalive frames are ever
written, and when it ran during the very first sleep the loop exits
normally without writing anything. -/
theorem keepalive_stop_rechecked_before_write :
    (∀ (fuel : Nat) (envs : List Env) (s : HState) (i : Nat) (e : Env),
      envs.get? i = some e → e.stop = true →
      countTicks (keep_alive fuel envs s).steps ≤ i) ∧
    (∀ (fuel : Nat) (envs : List Env) (s : HState),
      (envs.headD Env.idle).stop = true →
      (keep_alive (fuel + 1) envs s).steps = [.slept, .exitFlag] ∧
      (keep_alive (fuel + 1) envs s).state.wire = s.wire) := by
  constructor
  · intro fuel envs s i e hget hstop
    exact countTicks_loop_le fuel envs _ i e hget hstop
  · intro fuel envs s hstop
    unfold keep_alive
    rw [keepAliveLoop_stop_first fuel envs _ hstop]
    exact ⟨rfl, applyEnv_wire _ _⟩

theorem keepalive_stop_witness :
    countTicks (keep_alive 3 [⟨true, false⟩]
      ⟨true, false, false, [], [], [], "/u"⟩).steps ≤ 0 ∧
    (keep_alive 3 [⟨true, false⟩]
      ⟨true, false, false, [], [], [], "/u"⟩).steps = [.slept, .exitFlag] := by
  refine ⟨keepalive_stop_rechecked_before_write.1 3 [⟨true, false⟩]
    ⟨true, false, false, [], [], [], "/u"⟩ 0 ⟨true, false⟩ rfl rfl, ?_⟩
  exact (keepalive_stop_rechecked_before_write.2 2 [⟨true, false⟩]
    ⟨true, false, false, [], [], [], "/u"⟩ rfl).1

/-- C5: for every structured (non-string) event `j`, `emit` writes one
data frame whose payload is the canonical JSON serialization of `j`,
and decoding that payload with the JSON decoder yields `j` unchanged
(serialize-then-decode is the identity on well-formed values — object
keys are distinct, as Python dicts guarantee). -/
theorem emit_structured_roundtrip (s : HState) (j : Json)
    (hopen : s.isOpen = true) (hfin : s.finished = false) (hbuf : s.buffer = [])
    (hwf : Json.wf j = true) :
    (emit s (.structured j)).2 = none ∧
    (emit s (.structured j)).1.wire =
      s.wire ++ ["data: " ++ Json.dumps j ++ "\n\n"] ∧
    Json.loads (Json.dumps j) = some j := by
  refine ⟨?_, ?_, loads_dumps j hwf⟩ <;>
    simp [emit, rhWrite, rhFlush, hopen, hfin, hbuf]

theorem emit_structured_roundtrip_witness :
    Json.loads (Json.dumps (.obj (.cons "progress" (.int 1) .nil))) =
      some (.obj (.cons "progress" (.int 1) .nil)) ∧
    (emit ⟨true, false, true, [], [], [], "/u"⟩
      (.structured (.obj (.cons "progress" (.int 1) .nil)))).1.wire =
      ["data: " ++ Json.dumps (.obj (.cons "progress" (.int 1) .nil)) ++ "\n\n"] := by
  have h := emit_structured_roundtrip ⟨true, false, true, [], [], [], "/u"⟩
    (.obj (.cons "progress" (.int 1) .nil)) rfl rfl rfl (by decide)
  exact ⟨h.2.2, h.2.1⟩

/-- C6 (counterexample to the claim as stated): for status code 599 the
`http.client.responses` table has no standard textual name at all, yet
`send_error` still writes a terminal event — with the literal fallback
message `"Unknown HTTP Error\n"`, which is not a standard textual name.
So the claim's "for every status code" fails. -/
theorem send_error_unknown_status_counterexample :
    responses_find 599 = none ∧
    (send_error ⟨true, false, true, [], [], [], "/u"⟩ 599 none).1.wire =
      ["data: " ++ Json.dumps (.obj (.cons "phase" (.str "failed")
        (.cons "status_code" (.int 599)
          (.cons "message" (.str ("Unknown HTTP Error" ++ "\n")) .nil)))) ++ "\n\n"] := by
  constructor
  · rfl
  · rfl

/-- C6 (amended): whenever message extraction yields an empty message
and the status code has a standard textual name in
`http.client.responses`, the terminal error event's message is that
name followed by `"\n"`; for status codes without a standard name the
fallback is the literal `"Unknown HTTP Error"`. -/
theorem send_error_fallback_standard_name (s : HState) (code : Nat)
    (exc_info : Option PyException) (nm : String)
    (hopen : s.isOpen = true) (hfin : s.finished = false) (hbuf : s.buffer = [])
    (hname : responses_find code = some nm)
    (hmsg : extracted exc_info = "") :
    (send_error s code exc_info).2 = none ∧
    (send_error s code exc_info).1.wire = s.wire ++
      ["data: " ++ Json.dumps (.obj (.cons "phase" (.str "failed")
        (.cons "status_code" (.int code)
          (.cons "message" (.str (nm ++ "\n")) .nil)))) ++ "\n\n"] ∧
    (send_error s code exc_info).1.finished = true := by
  refine ⟨?_, ?_, ?_⟩ <;>
    simp [send_error, hmsg, responses_get, hname, rhWrite, rhFinish,
      on_finish, hopen, hfin, hbuf]

theorem send_error_fallback_witness :
    (send_error ⟨true, false, true, [], [], [], "/u"⟩ 404 none).1.wire =
      ["data: " ++ Json.dumps (.obj (.cons "phase" (.str "failed")
        (.cons "status_code" (.int 404)
          (.cons "message" (.str ("Not Found" ++ "\n")) .nil)))) ++ "\n\n"] := by
  have h := send_error_fallback_standard_name
    ⟨true, false, true, [], [], [], "/u"⟩ 404 none "Not Found"
    rfl rfl rfl rfl rfl
  simpa using h.2.1

/-- C7: when the keepalive loop's write or flush of the comment frame
fails because the connection is closed, the loop returns normally and
silently: its observed steps end in the silent exit, no exception
propagates, nothing reaches the connection, and nothing is logged. -/
theorem keepalive_closed_exits_silently (fuel : Nat) (s : HState)
    (hopen : s.isOpen = false) (hfin : s.finished = false) :
    (keep_alive (fuel + 1) [] s).steps = [.slept, .exitClosed] ∧
    (keep_alive (fuel + 1) [] s).exc = none ∧
    (keep_alive (fuel + 1) [] s).state.wire = s.wire ∧
    (keep_alive (fuel + 1) [] s).state.log = s.log := by
  unfold keep_alive
  have htick : keepAliveTick { s with keepalive := true } =
      (({ s with keepalive := true, buffer := s.buffer ++ [":keepalive\n\n"] } :
        HState), TickResult.exitClosed) := by
    simp [keepAliveTick, rhWrite, rhFlush, hfin, hopen]
  simp only [keepAliveLoop, List.headD_nil, applyEnv_idle, htick]
  exact ⟨trivial, trivial, trivial, trivial⟩

theorem keepalive_closed_witness :
    (keep_alive 1 [] ⟨false, false, false, [], ["data: prior\n\n"], [],
      "/u"⟩).steps = [.slept, .exitClosed] ∧
    (keep_alive 1 [] ⟨false, false, false, [], ["data: prior\n\n"], [],
      "/u"⟩).state.log = [] := by
  have h := keepalive_closed_exits_silently 0
    ⟨false, false, false, [], ["data: prior\n\n"], [], "/u"⟩ rfl rfl
  exact ⟨h.1, h.2.2.2⟩

/-- C9: `KEEPALIVE_INTERVAL` is 25 seconds and the loop sleeps one full
interval before its first flag check and write attempt: in every
observed run, the first step is never a write, and every keepalive
write is immediately preceded by a sleep of one interval — so the first
frame comes no earlier than one interval after the loop starts, and
consecutive frames are separated by at least one interval. -/
theorem keepalive_one_interval_before_any_write :
    KEEPALIVE_INTERVAL = 25 ∧
    ∀ (fuel : Nat) (envs : List Env) (s : HState),
      (keep_alive fuel envs s).steps.get? 0 ≠ some KAStep.ticked ∧
      ∀ i, (keep_alive fuel envs s).steps.get? (i + 1) = some KAStep.ticked →
        (keep_alive fuel envs s).steps.get? i = some KAStep.slept :=
  ⟨rfl, fun fuel envs s => keepAliveLoop_trace_shape fuel envs { s with keepalive := true }⟩

theorem keepalive_interval_witness :
    (keep_alive 2 [] ⟨true, false, false, [], [], [], "/u"⟩).steps.get? 3 =
      some KAStep.ticked ∧
    (keep_alive 2 [] ⟨true, false, false, [], [], [], "/u"⟩).steps.get? 2 =
      some KAStep.slept := by
  refine ⟨by decide, ?_⟩
  exact (keepalive_one_interval_before_any_write.2 2 []
    ⟨true, false, false, [], [], [], "/u"⟩).2 2 (by decide)

/-- C8 (counterexample to the claim as stated): a globally configured
`access-control-allow-headers` header does not survive into the final
header set — the handler overwrites it with `cache-control` — so the
final set does not contain every globally configured header. -/
theorem headers_config_override_counterexample :
    headers_get (eventstream_set_default_headers
      [("access-control-allow-headers", "x-custom")] [])
      "access-control-allow-headers" = some "cache-control" ∧
    headers_get (eventstream_set_default_headers
      [("access-control-allow-headers", "x-custom")] [])
      "access-control-allow-headers" ≠ some "x-custom" := by
  constructor
  · rfl
  · decide

/-- C8 (amended): on stream start the header set contains
`content-type: text/event-stream`, `cache-control: no-cache` and
`access-control-allow-headers: cache-control`, plus every globally
configured header whose (case-insensitive) name is none of those three
stream-specific names; the configured headers cannot override the
stream-specific ones. -/
theorem eventstream_default_headers (cfg : List (String × String))
    (hs0 : List (String × String))
    (hnd : (cfg.map (fun p => lowerStr p.1)).Nodup) :
    headers_get (eventstream_set_default_headers cfg hs0) "content-type" =
      some "text/event-stream" ∧
    headers_get (eventstream_set_default_headers cfg hs0) "cache-control" =
      some "no-cache" ∧
    headers_get (eventstream_set_default_headers cfg hs0)
      "access-control-allow-headers" = some "cache-control" ∧
    ∀ p ∈ cfg, lowerStr p.1 ≠ "content-type" → lowerStr p.1 ≠ "cache-control" →
      lowerStr p.1 ≠ "access-control-allow-headers" →
      headers_get (eventstream_set_default_headers cfg hs0) p.1 = some p.2 := by
  have l1 : lowerStr "cache-control" = "cache-control" := by decide
  have l2 : lowerStr "content-type" = "content-type" := by decide
  have l3 : lowerStr "access-control-allow-headers" =
    "access-control-allow-headers" := by decide
  unfold eventstream_set_default_headers base_set_default_headers
  refine ⟨?_, ?_, ?_, ?_⟩
  · rw [headers_get_set, if_neg (by decide), headers_get_set, if_pos rfl]
  · rw [headers_get_set, if_pos rfl]
  · rw [headers_get_set, if_neg (by decide), headers_get_set,
      if_neg (by decide), headers_get_set, if_pos rfl]
  · intro p hp h1 h2 h3
    rw [headers_get_set, if_neg (fun he => h2 (he.trans l1)),
      headers_get_set, if_neg (fun he => h1 (he.trans l2)),
      headers_get_set, if_neg (fun he => h3 (he.trans l3))]
    exact headers_get_fold_mem cfg hs0 p hp hnd

theorem eventstream_default_headers_witness :
    headers_get (eventstream_set_default_headers [("x-custom", "v1")] [])
      "content-type" = some "text/event-stream" ∧
    headers_get (eventstream_set_default_headers [("x-custom", "v1")] [])
      "x-custom" = some "v1" := by
  have h := eventstream_default_headers [("x-custom", "v1")] [] (by decide)
  exact ⟨h.1, h.2.2.2 ("x-custom", "v1") (by decide)
    (by decide) (by decide) (by decide)⟩

/-- C10: `get_spec_from_request` returns a value exactly when the
prefix occurs in the request path; on success the result is the raw
substring of the path starting one character past the end of the first
occurrence (no percent-decoding is performed — the result is literally
a suffix of the path); when the prefix does not occur the call fails
(`str.index` raises `ValueError`). -/
theorem get_spec_from_request_spec (path pfx : String) :
    (∀ r, get_spec_from_request path pfx = some r →
      ∃ i, pfx.data.isPrefixOf (path.data.drop i) = true ∧
        (∀ j, j < i → pfx.data.isPrefixOf (path.data.drop j) = false) ∧
        r = String.mk (path.data.drop (i + pfx.data.length + 1))) ∧
    (get_spec_from_request path pfx = none ↔
      ∀ i, pfx.data.isPrefixOf (path.data.drop i) = false) := by
  constructor
  · intro r hr
    unfold get_spec_from_request at hr
    cases hf : strFind path.data pfx.data with
    | none => rw [hf] at hr; cases hr
    | some i =>
      rw [hf] at hr
      simp only [Option.map_some', Option.some.injEq] at hr
      obtain ⟨h1, h2⟩ := strFind_some hf
      exact ⟨i, h1, h2, hr.symm⟩
  · constructor
    · intro hn i
      unfold get_spec_from_request at hn
      cases hf : strFind path.data pfx.data with
      | none => exact strFind_none hf i
      | some i2 => rw [hf] at hn; cases hn
    · intro hall
      unfold get_spec_from_request
      cases hf : strFind path.data pfx.data with
      | none => rfl
      | some i =>
        obtain ⟨h1, _⟩ := strFind_some hf
        rw [hall i] at h1
        cases h1

theorem get_spec_from_request_witness :
    ∃ i, ("/build/gh" : String).data.isPrefixOf
        (("/build/gh/owner%2Frepo/HEAD" : String).data.drop i) = true ∧
      (∀ j, j < i → ("/build/gh" : String).data.isPrefixOf
        (("/build/gh/owner%2Frepo/HEAD" : String).data.drop j) = false) ∧
      ("owner%2Frepo/HEAD" : String) = String.mk
        (("/build/gh/owner%2Frepo/HEAD" : String).data.drop
          (i + ("/build/gh" : String).data.length + 1)) :=
  (get_spec_from_request_spec "/build/gh/owner%2Frepo/HEAD" "/build/gh").1
    "owner%2Frepo/HEAD" (by decide)

end Binderhub
